import Mathlib

/-!
Verification model of the XML/HTML parser in
`src/packages/happy-dom/src/xml-parser/XMLParser.ts`.

The source is a single forward scan driven by two JavaScript regular
expressions (`MARKUP_REGEXP` and `ATTRIBUTE_REGEXP`) plus a small DOCTYPE
sub-parser.  We embed it shallowly:

* the input string is a `List Char`, positions are `Nat` indices;
* each regexp is translated into an explicit scanner (`tryAt`,
  `tryAttrAt`) that reproduces the JavaScript semantics: at each start
  position the alternatives are tried left to right, the leftmost
  position with a match wins (`exec` bump-along), character classes and
  greedy runs are spelled out;
* the mutable DOM is modelled as a zipper: the open-element stack is a
  list of `Frame`s (head = the current node, last = the root fragment);
  a child that the source appends to its parent at creation time is
  materialised into the parent's child list when it is popped, and the
  frames still open at the end of the parse are folded into the root
  (`collapseStack`), which yields the same final tree;
* the external collaborators that are not part of this repository slice
  (the element classification tables, the namespace registry and the
  entity decoder from the `he` package) are parameters: a `Config`
  carries the three tag tables and the two namespace identifiers, and
  `parse` takes the `decode` function as an argument.

Modelled from the spec: `setAttributeNS` of the external element model
("set an attribute on an element given an optional namespace, a name,
and a value") is modelled as appending the triple to the element's
attribute list in encounter order; every claim below only involves
pairwise distinct attribute names, for which this is faithful.
The `_evaluateScript` / `_evaluateCSS` side-channel flags set on script
and link elements do not affect the produced tree and are omitted.
-/

/-- The node tree produced by the parser (the part of the external DOM
the parser constructs).  Attributes are (namespace?, name, value). -/
inductive Node where
  | element (tagName : List Char) (namespaceURI : List Char)
      (attributes : List (Option (List Char) × List Char × List Char))
      (children : List Node)
  | text (data : List Char)
  | comment (data : List Char)
  | processingInstruction (target : List Char) (data : List Char)
  | documentType (name : List Char) (publicId : List Char) (systemId : List Char)
  | fragment (children : List Node)

/-- One entry of the open-element stack.  `tag = none` marks the root
document fragment; elements carry their canonical (upper-cased) tag name
and their namespace. -/
structure Frame where
  tag : Option (List Char)
  ns : Option (List Char)
  attributes : List (Option (List Char) × List Char × List Char)
  children : List Node

/-- `MarkupReadStateEnum` of the source. -/
inductive RState where
  | startOrEndTag
  | insideStartTag
  | plainTextContent
deriving DecidableEq, Repr

/-- One successful `MARKUP_REGEXP` match: start index, total length and
the eight capture groups (a group is `none` when its alternative did not
participate; every participating group is a non-empty string, so
JavaScript truthiness coincides with `isSome`). -/
structure MMatch where
  index : Nat
  len : Nat
  g1 : Option (List Char)
  g2 : Option (List Char)
  g3 : Option (List Char)
  g4 : Option (List Char)
  g5 : Option (List Char)
  g6 : Option (List Char)
  g7 : Option (List Char)
  g8 : Option (List Char)
deriving DecidableEq, Repr

/-- End position of a match (the regexp's `lastIndex` after `exec`). -/
def MMatch.stop (m : MMatch) : Nat := m.index + m.len

/-- One successful `ATTRIBUTE_REGEXP` match: length of `match[0]`
(leading whitespace included), the attribute name, and the raw value;
`rawValue = none` models a JavaScript-falsy `match[2] || match[4] ||
match[6]` (group absent, or present but empty). -/
structure AttrM where
  len : Nat
  name : List Char
  rawValue : Option (List Char)
deriving DecidableEq, Repr

/-- Tag classification tables and the namespace registry, the external
configuration modules (`VoidElements`, `PlainTextElements`,
`UnnestableElements`, `NamespaceURI`) that are outside this repository
slice.  Names are canonical (upper-cased). -/
structure Config where
  voidElements : List (List Char)
  plainTextElements : List (List Char)
  unnestableElements : List (List Char)
  svg : List Char
  html : List Char

/-- Parser driver state: the open-element stack (head = current node,
last = root fragment) and the scalar state of `parse`. -/
structure PState where
  stack : List Frame
  plainTextTagName : Option (List Char)
  unnestableTagNames : List (List Char)
  readState : RState
  startTagIndex : Nat
  lastIndex : Nat

/-- JavaScript `\s` (the whitespace class used by `\s*` / `\s+` and
`String.prototype.trim`). -/
def isWS (c : Char) : Bool :=
  c = ' ' || (c = '\t' || (c = '\n' || (c = '\r' || (c = '\x0b' || (c = '\x0c' ||
  (c = '\u00A0' || (c = '\u1680' || (('\u2000' ≤ c && c ≤ '\u200A') ||
  (c = '\u2028' || (c = '\u2029' || (c = '\u202F' || (c = '\u205F' ||
  (c = '\u3000' || c = '\uFEFF')))))))))))))

/-- The tag-name character class `[a-zA-Z0-9-]`. -/
def isNameChar (c : Char) : Bool :=
  ('a' ≤ c && c ≤ 'z') || (('A' ≤ c && c ≤ 'Z') || (('0' ≤ c && c ≤ '9') || c = '-'))

/-- The attribute-name character class `[a-zA-Z0-9-_:]`. -/
def isAttrNameChar (c : Char) : Bool :=
  isNameChar c || (c = '_' || c = ':')

/-- ASCII upper-casing of one character (`String.prototype.toUpperCase`
restricted to the ASCII letters; every string it is applied to in the
source is matched by ASCII-only character classes). -/
def upChar (c : Char) : Char :=
  if 'a' ≤ c && c ≤ 'z' then Char.ofNat (c.toNat - 32) else c

/-- ASCII lower-casing of one character. -/
def downChar (c : Char) : Char :=
  if 'A' ≤ c && c ≤ 'Z' then Char.ofNat (c.toNat + 32) else c

/-- `toUpperCase` on a string. -/
def upperL (l : List Char) : List Char := l.map upChar

/-- `toLowerCase` on a string. -/
def lowerL (l : List Char) : List Char := l.map downChar

/-- `data.substring(a, b)` for `a ≤ b`. -/
def sub (cs : List Char) (a b : Nat) : List Char := (cs.drop a).take (b - a)

/-- `String.prototype.trim`. -/
def trimJS (l : List Char) : List Char :=
  ((l.dropWhile isWS).reverse.dropWhile isWS).reverse

/-- JavaScript `x || dflt` for a string-or-undefined `x` (both
`undefined` and the empty string are falsy). -/
def jsOr (v : Option (List Char)) (dflt : List Char) : List Char :=
  match v with
  | some s => if s.isEmpty then dflt else s
  | none => dflt

/-- `String.prototype.includes` (substring containment). -/
def hasSub (needle : List Char) : List Char → Bool
  | [] => needle.isEmpty
  | c :: t => needle.isPrefixOf (c :: t) || hasSub needle t

/-- `String.prototype.split(sep)` for a one-character separator. -/
def splitOnChar (sep : Char) : List Char → List (List Char)
  | [] => [[]]
  | c :: t =>
    if c = sep then [] :: splitOnChar sep t
    else
      match splitOnChar sep t with
      | h :: r => (c :: h) :: r
      | [] => [[c]]

/-- `Array.prototype.join(' ')`. -/
def joinSpace : List (List Char) → List Char
  | [] => []
  | [x] => x
  | x :: r => x ++ ' ' :: joinSpace r

/-- An `MMatch` with every group empty (filled in by the alternatives). -/
def mkM (len : Nat) : MMatch := ⟨0, len, none, none, none, none, none, none, none, none⟩

/-- Core of alternative 1 of `MARKUP_REGEXP`: a comment, `<!--` then a
non-empty greedy run of `[^->]`, at most two dashes and a closing angle
bracket.  Returns the match length and group 1. -/
def alt1Core (s : List Char) : Option (Nat × List Char) :=
  match s with
  | '<' :: '!' :: '-' :: '-' :: rest =>
    let g := rest.takeWhile (fun c => c ≠ '-' && c ≠ '>')
    let r := rest.dropWhile (fun c => c ≠ '-' && c ≠ '>')
    if g.isEmpty then none
    else
      match r with
      | '-' :: '-' :: '>' :: _ => some (4 + g.length + 3, g)
      | '-' :: '>' :: _ => some (4 + g.length + 2, g)
      | '>' :: _ => some (4 + g.length + 1, g)
      | _ => none
  | _ => none

/-- Alternative 1 as a match record. -/
def tryAlt1 (s : List Char) : Option MMatch :=
  (alt1Core s).map fun p => { mkM p.1 with g1 := some p.2 }

/-- Core of alternative 2: an exclamation-mark declaration, `<!` then a
non-empty run of `[^>]` and a closing angle bracket. -/
def alt2Core (s : List Char) : Option (Nat × List Char) :=
  match s with
  | '<' :: '!' :: rest =>
    let g := rest.takeWhile (fun c => c ≠ '>')
    let r := rest.dropWhile (fun c => c ≠ '>')
    if g.isEmpty then none
    else
      match r with
      | '>' :: _ => some (2 + g.length + 1, g)
      | _ => none
  | _ => none

/-- Alternative 2 as a match record. -/
def tryAlt2 (s : List Char) : Option MMatch :=
  (alt2Core s).map fun p => { mkM p.1 with g2 := some p.2 }

/-- Core of alternative 3: a processing instruction, `<?` then a
non-empty tag-name run, one literal space, a non-empty run of `[^?]`
and `?>`.  Returns the match length, group 3 and group 4. -/
def alt3Core (s : List Char) : Option (Nat × List Char × List Char) :=
  match s with
  | '<' :: '?' :: rest =>
    let nm := rest.takeWhile isNameChar
    let r1 := rest.dropWhile isNameChar
    if nm.isEmpty then none
    else
      match r1 with
      | ' ' :: rest2 =>
        let d := rest2.takeWhile (fun c => c ≠ '?')
        let r2 := rest2.dropWhile (fun c => c ≠ '?')
        if d.isEmpty then none
        else
          match r2 with
          | '?' :: '>' :: _ => some (2 + nm.length + 1 + d.length + 2, nm, d)
          | _ => none
      | _ => none
  | _ => none

/-- Alternative 3 as a match record. -/
def tryAlt3 (s : List Char) : Option MMatch :=
  (alt3Core s).map fun p => { mkM p.1 with g3 := some p.2.1, g4 := some p.2.2 }

/-- Core of alternative 4: the opening of a start tag, `<` followed by a
non-empty tag-name run. -/
def alt4Core (s : List Char) : Option (Nat × List Char) :=
  match s with
  | '<' :: rest =>
    let nm := rest.takeWhile isNameChar
    if nm.isEmpty then none
    else some (1 + nm.length, nm)
  | _ => none

/-- Alternative 4 as a match record. -/
def tryAlt4 (s : List Char) : Option MMatch :=
  (alt4Core s).map fun p => { mkM p.1 with g5 := some p.2 }

/-- Core of alternative 5: a self-closing start-tag terminator, optional
whitespace then a slash and an angle bracket. -/
def alt5Core (s : List Char) : Option Nat :=
  let ws := s.takeWhile isWS
  match s.dropWhile isWS with
  | '/' :: '>' :: _ => some (ws.length + 2)
  | _ => none

/-- Alternative 5 as a match record. -/
def tryAlt5 (s : List Char) : Option MMatch :=
  (alt5Core s).map fun k => { mkM k with g6 := some ['/', '>'] }

/-- Core of alternative 6: a plain start-tag terminator, optional
whitespace then an angle bracket. -/
def alt6Core (s : List Char) : Option Nat :=
  let ws := s.takeWhile isWS
  match s.dropWhile isWS with
  | '>' :: _ => some (ws.length + 1)
  | _ => none

/-- Alternative 6 as a match record. -/
def tryAlt6 (s : List Char) : Option MMatch :=
  (alt6Core s).map fun k => { mkM k with g7 := some ['>'] }

/-- Core of alternative 7: an end tag, `</` then a non-empty tag-name
run and a closing angle bracket. -/
def alt7Core (s : List Char) : Option (Nat × List Char) :=
  match s with
  | '<' :: '/' :: rest =>
    let nm := rest.takeWhile isNameChar
    let r := rest.dropWhile isNameChar
    if nm.isEmpty then none
    else
      match r with
      | '>' :: _ => some (2 + nm.length + 1, nm)
      | _ => none
  | _ => none

/-- Alternative 7 as a match record. -/
def tryAlt7 (s : List Char) : Option MMatch :=
  (alt7Core s).map fun p => { mkM p.1 with g8 := some p.2 }

/-- Try `MARKUP_REGEXP` anchored at one position (the alternatives in
source order; the first that matches wins, as in a regexp engine). -/
def tryAt (s : List Char) : Option MMatch :=
  match tryAlt1 s with
  | some m => some m
  | none =>
  match tryAlt2 s with
  | some m => some m
  | none =>
  match tryAlt3 s with
  | some m => some m
  | none =>
  match tryAlt4 s with
  | some m => some m
  | none =>
  match tryAlt5 s with
  | some m => some m
  | none =>
  match tryAlt6 s with
  | some m => some m
  | none => tryAlt7 s

/-- Bump-along loop of `markupRegexp.exec`: try every start position
from `pos` and return the leftmost match. -/
def markupExecAux (cs : List Char) : Nat → Nat → Option MMatch
  | 0, _ => none
  | Nat.succ fuel, pos =>
    match tryAt (cs.drop pos) with
    | some r => some { r with index := pos }
    | none => if pos < cs.length then markupExecAux cs fuel (pos + 1) else none

/-- `markupRegexp.exec(data)` with `lastIndex = pos`. -/
def markupExec (cs : List Char) (pos : Nat) : Option MMatch :=
  markupExecAux cs (cs.length + 1 - pos) pos

/-- Alternative 1 of `ATTRIBUTE_REGEXP`: `\s*name *= *"value"` (the
value may be empty; an empty value is JavaScript-falsy, hence
`rawValue = none`). -/
def tryAttrAlt1 (s : List Char) : Option AttrM :=
  let ws := s.takeWhile isWS
  let r0 := s.dropWhile isWS
  let nm := r0.takeWhile isAttrNameChar
  let r1 := r0.dropWhile isAttrNameChar
  if nm.isEmpty then none
  else
    let sp1 := r1.takeWhile (fun c => c = ' ')
    match r1.dropWhile (fun c => c = ' ') with
    | c :: r3 =>
      if c = '=' then
        let sp2 := r3.takeWhile (fun c => c = ' ')
        match r3.dropWhile (fun c => c = ' ') with
        | d :: r5 =>
          if d = '"' then
            let v := r5.takeWhile (fun e => e ≠ '"')
            match r5.dropWhile (fun e => e ≠ '"') with
            | q :: _ =>
              if q = '"' then
                some ⟨ws.length + nm.length + sp1.length + 1 + sp2.length + 1 + v.length + 1,
                  nm, if v.isEmpty then none else some v⟩
              else none
            | [] => none
          else none
        | [] => none
      else none
    | [] => none

/-- Alternative 2: `\s*name *= *'value'`. -/
def tryAttrAlt2 (s : List Char) : Option AttrM :=
  let ws := s.takeWhile isWS
  let r0 := s.dropWhile isWS
  let nm := r0.takeWhile isAttrNameChar
  let r1 := r0.dropWhile isAttrNameChar
  if nm.isEmpty then none
  else
    let sp1 := r1.takeWhile (fun c => c = ' ')
    match r1.dropWhile (fun c => c = ' ') with
    | c :: r3 =>
      if c = '=' then
        let sp2 := r3.takeWhile (fun c => c = ' ')
        match r3.dropWhile (fun c => c = ' ') with
        | d :: r5 =>
          if d = '\'' then
            let v := r5.takeWhile (fun e => e ≠ '\'')
            match r5.dropWhile (fun e => e ≠ '\'') with
            | q :: _ =>
              if q = '\'' then
                some ⟨ws.length + nm.length + sp1.length + 1 + sp2.length + 1 + v.length + 1,
                  nm, if v.isEmpty then none else some v⟩
              else none
            | [] => none
          else none
        | [] => none
      else none
    | [] => none

/-- The unquoted-value character class `[^"\' >]`. -/
def isUnquotedChar (c : Char) : Bool :=
  c ≠ '"' && c ≠ '\'' && c ≠ ' ' && c ≠ '>'

/-- Alternative 3: `\s*name *= *value` with a non-empty unquoted value. -/
def tryAttrAlt3 (s : List Char) : Option AttrM :=
  let ws := s.takeWhile isWS
  let r0 := s.dropWhile isWS
  let nm := r0.takeWhile isAttrNameChar
  let r1 := r0.dropWhile isAttrNameChar
  if nm.isEmpty then none
  else
    let sp1 := r1.takeWhile (fun c => c = ' ')
    match r1.dropWhile (fun c => c = ' ') with
    | c :: r3 =>
      if c = '=' then
        let sp2 := r3.takeWhile (fun c => c = ' ')
        let r4 := r3.dropWhile (fun c => c = ' ')
        let v := r4.takeWhile isUnquotedChar
        if v.isEmpty then none
        else some ⟨ws.length + nm.length + sp1.length + 1 + sp2.length + v.length, nm, some v⟩
      else none
    | [] => none

/-- Alternative 4: a bare attribute `\s+name(?:\s+|$)`; the greedy
trailing `\s+` consumes the whitespace that follows the name. -/
def tryAttrAlt4 (s : List Char) : Option AttrM :=
  let ws := s.takeWhile isWS
  if ws.isEmpty then none
  else
    let r0 := s.dropWhile isWS
    let nm := r0.takeWhile isAttrNameChar
    let r1 := r0.dropWhile isAttrNameChar
    if nm.isEmpty then none
    else
      let ws2 := r1.takeWhile isWS
      if ws2.isEmpty then
        if r1.isEmpty then some ⟨ws.length + nm.length, nm, none⟩ else none
      else some ⟨ws.length + nm.length + ws2.length, nm, none⟩

/-- Try `ATTRIBUTE_REGEXP` anchored at one position. -/
def tryAttrAt (s : List Char) : Option AttrM :=
  match tryAttrAlt1 s with
  | some m => some m
  | none =>
  match tryAttrAlt2 s with
  | some m => some m
  | none =>
  match tryAttrAlt3 s with
  | some m => some m
  | none => tryAttrAlt4 s

/-- The `ATTRIBUTE_REGEXP.exec` loop over the attribute string: the list
of matches in order (bump-along past unmatched characters). -/
def attrScanAux : Nat → List Char → List AttrM
  | 0, _ => []
  | _, [] => []
  | Nat.succ fuel, l =>
    match tryAttrAt l with
    | some am => am :: attrScanAux fuel (l.drop am.len)
    | none => attrScanAux fuel l.tail

/-- All `ATTRIBUTE_REGEXP` matches of the attribute string. -/
def attrMatches (l : List Char) : List AttrM := attrScanAux l.length l

/-- Turn a closed frame into the node the source created for it when
the element was appended to its parent. -/
def finalizeFrame (f : Frame) : Node :=
  match f.tag with
  | some t => Node.element t (f.ns.getD []) f.attributes f.children
  | none => Node.fragment f.children

/-- `currentNode.appendChild(n)`: the current node is the stack head.
(The empty-stack case is unreachable: the root is never popped, see the
stack invariant below.) -/
def appendToCurrent (n : Node) : List Frame → List Frame
  | f :: rest => { f with children := f.children ++ [n] } :: rest
  | [] => []

/-- `stack.pop(); currentNode = stack[stack.length - 1] || root`: the
closed head frame is materialised as a child of the frame below it.
(A pop with nothing below would pop the root; that case is unreachable
and modelled as a no-op.) -/
def popFrame : List Frame → List Frame
  | f :: g :: rest => { g with children := g.children ++ [finalizeFrame f] } :: rest
  | st => st

/-- The tag name of the current node, `none` for the root fragment
(whose JavaScript `tagName` is `undefined`). -/
def headTagOf : List Frame → Option (List Char)
  | f :: _ => f.tag
  | [] => none

/-- The namespace of the current node, `none` for the root fragment. -/
def headNS : List Frame → Option (List Char)
  | f :: _ => f.ns
  | [] => none

/-- Membership of an optional tag name in a classification table
(`table.includes(undefined)` is false). -/
def optContains (table : List (List Char)) : Option (List Char) → Bool
  | some t => table.contains t
  | none => false

/-- The unnestable auto-close loop (source lines 134-142): while the
current node is not the root, pop; stop after popping a frame whose tag
name equals the triggering name.  `f` is the current top, the list
argument is the rest of the stack below it. -/
def autoCloseAux (t : List Char) (f : Frame) : List Frame → List Frame
  | [] => [f]
  | g :: rest =>
    if f.tag = some t then { g with children := g.children ++ [finalizeFrame f] } :: rest
    else autoCloseAux t { g with children := g.children ++ [finalizeFrame f] } rest

/-- The unnestable auto-close loop applied to the whole stack. -/
def autoClose (t : List Char) : List Frame → List Frame
  | f :: rest => autoCloseAux t f rest
  | [] => []

/-- `"SVG"`. -/
def svgU : List Char := ['S', 'V', 'G']

/-- `"xmlns"`. -/
def xmlnsL : List Char := ['x', 'm', 'l', 'n', 's']

/-- Start-tag handling (source lines 124-157): auto-close an open
unnestable ancestor of the same name, resolve the namespace, create and
push the element, switch to the inside-start-tag state. -/
def handleStartTag (cfg : Config) (nm : List Char) (stop : Nat) (s : PState) : PState :=
  let tagName := upperL nm
  let s1 :=
    if s.unnestableTagNames.contains tagName then
      { s with unnestableTagNames := s.unnestableTagNames.erase tagName,
               stack := autoClose tagName s.stack }
    else s
  let namespaceURI := if tagName = svgU then cfg.svg else jsOr (headNS s1.stack) cfg.html
  { s1 with stack := Frame.mk (some tagName) (some namespaceURI) [] [] :: s1.stack,
            readState := RState.insideStartTag,
            startTagIndex := stop }

/-- End-tag handling (source lines 158-173): only an end tag whose
upper-cased name equals the current node's tag name pops; a mismatch is
ignored. -/
def handleEndTag (nm : List Char) (s : PState) : PState :=
  match headTagOf s.stack with
  | some t =>
    if upperL nm = t then
      { s with unnestableTagNames := s.unnestableTagNames.erase t,
               stack := popFrame s.stack }
    else s
  | none => s

/-- `_getDocumentTypeNode` helper: the `DOCUMENT_TYPE_ATTRIBUTE_REGEXP`
(`"([^"]+)"`) exec loop, collecting the quoted segments with non-empty
content, left to right. -/
def collectQuotedAux : Nat → List Char → List (List Char)
  | 0, _ => []
  | _, [] => []
  | Nat.succ fuel, c :: t =>
    if c = '"' then
      let g := t.takeWhile (fun d => d ≠ '"')
      match t.dropWhile (fun d => d ≠ '"') with
      | '"' :: r => if g.isEmpty then collectQuotedAux fuel t else g :: collectQuotedAux fuel r
      | _ => collectQuotedAux fuel t
    else collectQuotedAux fuel t

/-- All matches of `DOCUMENT_TYPE_ATTRIBUTE_REGEXP` over the string. -/
def collectQuoted (l : List Char) : List (List Char) := collectQuotedAux l.length l

/-- `"DOCTYPE"`. -/
def doctypeU : List Char := ['D', 'O', 'C', 'T', 'Y', 'P', 'E']

/-- `"PUBLIC"`. -/
def publicU : List Char := ['P', 'U', 'B', 'L', 'I', 'C']

/-- `XMLParser._getDocumentTypeNode` (source lines 297-326). -/
def _getDocumentTypeNode (value : List Char) : Option Node :=
  if ¬ doctypeU.isPrefixOf (upperL value) then none
  else
    let docTypeSplit := splitOnChar ' ' value
    if docTypeSplit.length ≤ 1 then none
    else
      let docTypeString := joinSpace (docTypeSplit.drop 1)
      let attributes := collectQuoted docTypeString
      let isPublic := hasSub publicU docTypeString
      let publicId := if isPublic then attributes.getD 0 [] else []
      let systemId := if isPublic then attributes.getD 1 [] else attributes.getD 0 []
      some (Node.documentType (lowerL (docTypeSplit.getD 1 [])) publicId systemId)

/-- `"[if "`. -/
def ifOpenL : List Char := ['[', 'i', 'f', ' ']

/-- `"[endif]"`. -/
def endifL : List Char := ['[', 'e', 'n', 'd', 'i', 'f', ']']

/-- `"[endif]--"`. -/
def endifDashL : List Char := endifL ++ ['-', '-']

/-- `const value = rawValue ? decode(rawValue) : ''` (source line 196). -/
def attrVal (decode : List Char → List Char) (am : AttrM) : List Char :=
  match am.rawValue with
  | some v => decode v
  | none => []

/-- The attribute triple stored by one `setAttributeNS` call for an
element with the given tag name (source lines 193-200): the attribute's
namespace is its own value when it is `xmlns` on an SVG element, else
null. -/
def attrEntry (decode : List Char → List Char) (tag : Option (List Char)) (am : AttrM) :
    Option (List Char) × List Char × List Char :=
  let value := attrVal decode am
  (if tag = some svgU ∧ am.name = xmlnsL then some value else none, am.name, value)

/-- One `setAttributeNS` call of the attribute loop (source lines
192-203), applied to the current node (the stack head). -/
def setAttr (decode : List Char → List Char) (st : List Frame) (am : AttrM) : List Frame :=
  match st with
  | f :: rest => { f with attributes := f.attributes ++ [attrEntry decode f.tag am] } :: rest
  | [] => []

/-- The `startOrEndTag` case of the driver switch (source lines
89-181): flush pending text, then dispatch on the populated group. -/
def stepScanning (cfg : Config) (cs : List Char) (s : PState) (m : MMatch) : PState :=
  let s :=
    if m.index ≠ s.lastIndex ∧
        (m.g1.isSome || m.g2.isSome || m.g3.isSome || m.g5.isSome || m.g8.isSome) then
      { s with stack := appendToCurrent (Node.text (sub cs s.lastIndex m.index)) s.stack }
    else s
  match m.g1, m.g2, m.g3, m.g4, m.g5, m.g8 with
  | some c, _, _, _, _, _ =>
    if ifOpenL.isPrefixOf c && [']'].isSuffixOf c then
      { s with readState := RState.plainTextContent, startTagIndex := m.index + 4 }
    else { s with stack := appendToCurrent (Node.comment c) s.stack }
  | none, some c, _, _, _, _ =>
    { s with stack := appendToCurrent ((_getDocumentTypeNode c).getD (Node.comment c)) s.stack }
  | none, none, some t, some d, _, _ =>
    { s with stack := appendToCurrent (Node.processingInstruction t (trimJS d)) s.stack }
  | none, none, _, _, some nm, _ => handleStartTag cfg nm m.stop s
  | none, none, _, _, none, some nm => handleEndTag nm s
  | none, none, _, _, none, none =>
    { s with stack := appendToCurrent (Node.text (sub cs s.lastIndex m.stop)) s.stack }

/-- The `insideStartTag` case (source lines 182-232): on a terminator,
run the attribute loop over the substring from `startTagIndex` to the
match, then — only if it was consumed completely — close the start tag
(pop for self-closing or void elements, otherwise stay open, entering
the raw-text state for plain-text elements and recording unnestable
elements). -/
def stepInsideStartTag (cfg : Config) (decode : List Char → List Char) (cs : List Char)
    (s : PState) (m : MMatch) : PState :=
  if m.g6.isSome || m.g7.isSome then
    let attributeString := sub cs s.startTagIndex m.index
    let ms := attrMatches attributeString
    let st1 := ms.foldl (setAttr decode) s.stack
    let sti := s.startTagIndex + (ms.map AttrM.len).sum
    if sti = m.index then
      let ctn := headTagOf st1
      if m.g7.isSome && !(optContains cfg.voidElements ctn) then
        let ptn := if optContains cfg.plainTextElements ctn then ctn else none
        let unn :=
          match ctn with
          | some t =>
            if cfg.unnestableElements.contains t then s.unnestableTagNames ++ [t]
            else s.unnestableTagNames
          | none => s.unnestableTagNames
        { s with stack := st1,
                 plainTextTagName := ptn,
                 readState :=
                   if ptn.isSome then RState.plainTextContent else RState.startOrEndTag,
                 unnestableTagNames := unn,
                 startTagIndex := m.stop }
      else
        { s with stack := popFrame st1,
                 readState := RState.startOrEndTag,
                 startTagIndex := m.stop }
    else { s with stack := st1, startTagIndex := sti }
  else s

/-- The `plainTextContent` case (source lines 233-274): in raw-text
mode only the matching end tag closes (flushing the whole raw content as
one text node); in conditional-comment mode only an `[endif]` form
closes (flushing one comment node). -/
def stepPlainText (cs : List Char) (s : PState) (m : MMatch) : PState :=
  match s.plainTextTagName with
  | some t =>
    match m.g8 with
    | some nm =>
      if upperL nm = t then
        { s with
            stack := popFrame
              (appendToCurrent (Node.text (sub cs s.startTagIndex m.index)) s.stack),
            plainTextTagName := none,
            readState := RState.startOrEndTag }
      else s
    | none => s
  | none =>
    if m.g1 = some endifL ∨ m.g2 = some endifL ∨ m.g2 = some endifDashL then
      let c := match m.g1 with | some c => c | none => m.g2.getD []
      let cut := m.stop - 1 - (if ['-'].isSuffixOf c then 2 else 0)
      { s with stack := appendToCurrent (Node.comment (sub cs s.startTagIndex cut)) s.stack,
               readState := RState.startOrEndTag }
    else s

/-- One iteration of the `while ((match = markupRegexp.exec(data)))`
loop: dispatch on the read state, then record the regexp's `lastIndex`. -/
def stepMatch (cfg : Config) (decode : List Char → List Char) (cs : List Char)
    (s : PState) (m : MMatch) : PState :=
  let s1 :=
    match s.readState with
    | RState.startOrEndTag => stepScanning cfg cs s m
    | RState.insideStartTag => stepInsideStartTag cfg decode cs s m
    | RState.plainTextContent => stepPlainText cs s m
  { s1 with lastIndex := m.stop }

/-- The driver loop.  Every match has positive length and starts at or
after `lastIndex`, so `cs.length + 1` iterations always suffice. -/
def runLoop (cfg : Config) (decode : List Char → List Char) (cs : List Char) :
    Nat → PState → PState
  | 0, s => s
  | Nat.succ fuel, s =>
    match markupExec cs s.lastIndex with
    | none => s
    | some m => runLoop cfg decode cs fuel (stepMatch cfg decode cs s m)

/-- The root document-fragment frame. -/
def rootFrame : Frame := Frame.mk none none [] []

/-- The initial parser state. -/
def initState : PState :=
  PState.mk [rootFrame] none [] RState.startOrEndTag 0 0

/-- Fold the frames still open at the end of the parse into the root
(in the source they are already attached to their parents; the zipper
materialises them here).  `f` is the current top. -/
def collapseAux (f : Frame) : List Frame → List Node
  | [] => f.children
  | g :: rest => collapseAux { g with children := g.children ++ [finalizeFrame f] } rest

/-- The children of the returned root fragment. -/
def collapseStack : List Frame → List Node
  | f :: rest => collapseAux f rest
  | [] => []

/-- `XMLParser.parse` (source lines 68-288): run the scan loop, flush
the text after the last match, return the root's children. -/
def parse (cfg : Config) (decode : List Char → List Char) (cs : List Char) : List Node :=
  let s1 := runLoop cfg decode cs (cs.length + 1) initState
  let s2 :=
    if s1.lastIndex ≠ cs.length then
      { s1 with stack := appendToCurrent (Node.text (sub cs s1.lastIndex cs.length)) s1.stack }
    else s1
  collapseStack s2.stack

/-! ### Shared concrete instances and observation helpers -/

/-- A test configuration in which `A` is unnestable. -/
def cfgA : Config := Config.mk [] [] [['A']] ['S'] ['H']

/-- A test configuration in which `R` is a plain-text (raw-text) element. -/
def cfgR : Config := Config.mk [] [['R']] [] ['S'] ['H']

/-- A test configuration with empty classification tables. -/
def cfgE : Config := Config.mk [] [] [] ['S'] ['H']

/-- The identity entity decoder, used for concrete test inputs that
contain no entities. -/
def idD : List Char → List Char := fun v => v

/-- The children of the first node, when it is an element. -/
def firstChildren : List Node → List Node
  | Node.element _ _ _ c :: _ => c
  | _ => []

/-- The attribute names of the first node, when it is an element. -/
def firstAttrNames : List Node → List (List Char)
  | Node.element _ _ a _ :: _ => a.map (fun e => e.2.1)
  | _ => []

/-- The `publicId` of a document-type result. -/
def dtPublicId : Option Node → Option (List Char)
  | some (Node.documentType _ p _) => some p
  | _ => none

/-- The `systemId` of a document-type result. -/
def dtSystemId : Option Node → Option (List Char)
  | some (Node.documentType _ _ q) => some q
  | _ => none

/-! ### Tokenizer shape lemmas

A `MARKUP_REGEXP` match populates exactly the groups of the alternative
that matched; these lemmas record the combinations the driver's
dispatch relies on. -/

theorem tryAlt1_groups {s : List Char} {m : MMatch} (h : tryAlt1 s = some m) :
    m.g2 = none ∧ m.g3 = none ∧ m.g4 = none ∧ m.g5 = none ∧ m.g8 = none := by
  rcases Option.map_eq_some'.mp h with ⟨p, _, hm⟩
  subst hm; simp [mkM]

theorem tryAlt2_groups {s : List Char} {m : MMatch} (h : tryAlt2 s = some m) :
    m.g1 = none ∧ m.g3 = none ∧ m.g4 = none ∧ m.g5 = none ∧ m.g8 = none := by
  rcases Option.map_eq_some'.mp h with ⟨p, _, hm⟩
  subst hm; simp [mkM]

theorem tryAlt3_groups {s : List Char} {m : MMatch} (h : tryAlt3 s = some m) :
    m.g1 = none ∧ m.g2 = none ∧ m.g3.isSome ∧ m.g4.isSome ∧ m.g5 = none ∧ m.g8 = none := by
  rcases Option.map_eq_some'.mp h with ⟨p, _, hm⟩
  subst hm; simp [mkM]

theorem tryAlt4_groups {s : List Char} {m : MMatch} (h : tryAlt4 s = some m) :
    m.g1 = none ∧ m.g2 = none ∧ m.g3 = none ∧ m.g4 = none ∧ m.g8 = none := by
  rcases Option.map_eq_some'.mp h with ⟨p, _, hm⟩
  subst hm; simp [mkM]

theorem tryAlt5_groups {s : List Char} {m : MMatch} (h : tryAlt5 s = some m) :
    m.g1 = none ∧ m.g2 = none ∧ m.g3 = none ∧ m.g4 = none ∧ m.g5 = none ∧ m.g8 = none := by
  rcases Option.map_eq_some'.mp h with ⟨p, _, hm⟩
  subst hm; simp [mkM]

theorem tryAlt6_groups {s : List Char} {m : MMatch} (h : tryAlt6 s = some m) :
    m.g1 = none ∧ m.g2 = none ∧ m.g3 = none ∧ m.g4 = none ∧ m.g5 = none ∧ m.g8 = none := by
  rcases Option.map_eq_some'.mp h with ⟨p, _, hm⟩
  subst hm; simp [mkM]

theorem tryAlt7_groups {s : List Char} {m : MMatch} (h : tryAlt7 s = some m) :
    m.g1 = none ∧ m.g2 = none ∧ m.g3 = none ∧ m.g4 = none ∧ m.g5 = none := by
  rcases Option.map_eq_some'.mp h with ⟨p, _, hm⟩
  subst hm; simp [mkM]

/-- `tryAt` returns the result of one of the seven alternatives. -/
theorem tryAt_cases {s : List Char} {m : MMatch} (h : tryAt s = some m) :
    tryAlt1 s = some m ∨ tryAlt2 s = some m ∨ tryAlt3 s = some m ∨
      tryAlt4 s = some m ∨ tryAlt5 s = some m ∨ tryAlt6 s = some m ∨
      tryAlt7 s = some m := by
  unfold tryAt at h
  repeat' split at h
  all_goals try (cases h)
  · exact Or.inl (by assumption)
  · exact Or.inr (Or.inl (by assumption))
  · exact Or.inr (Or.inr (Or.inl (by assumption)))
  · exact Or.inr (Or.inr (Or.inr (Or.inl (by assumption))))
  · exact Or.inr (Or.inr (Or.inr (Or.inr (Or.inl (by assumption)))))
  · exact Or.inr (Or.inr (Or.inr (Or.inr (Or.inr (Or.inl (by assumption))))))
  · exact Or.inr (Or.inr (Or.inr (Or.inr (Or.inr (Or.inr h)))))

/-- A match with a populated group 8 (an end tag) has no other
dispatch-relevant group populated. -/
theorem tryAt_endTag_shape {s : List Char} {m : MMatch} (h : tryAt s = some m)
    (h8 : m.g8.isSome) :
    m.g1 = none ∧ m.g2 = none ∧ m.g3 = none ∧ m.g4 = none ∧ m.g5 = none := by
  rcases tryAt_cases h with h' | h' | h' | h' | h' | h' | h'
  · exact absurd (tryAlt1_groups h').2.2.2.2 (Option.isSome_iff_ne_none.mp h8)
  · exact absurd (tryAlt2_groups h').2.2.2.2 (Option.isSome_iff_ne_none.mp h8)
  · exact absurd (tryAlt3_groups h').2.2.2.2.2 (Option.isSome_iff_ne_none.mp h8)
  · exact absurd (tryAlt4_groups h').2.2.2.2 (Option.isSome_iff_ne_none.mp h8)
  · exact absurd (tryAlt5_groups h').2.2.2.2.2 (Option.isSome_iff_ne_none.mp h8)
  · exact absurd (tryAlt6_groups h').2.2.2.2.2 (Option.isSome_iff_ne_none.mp h8)
  · exact tryAlt7_groups h'

/-- A match with a populated group 5 (a start tag) has no earlier
dispatch-relevant group populated, and no group 8. -/
theorem tryAt_startTag_shape {s : List Char} {m : MMatch} (h : tryAt s = some m)
    (h5 : m.g5.isSome) :
    m.g1 = none ∧ m.g2 = none ∧ m.g3 = none ∧ m.g4 = none ∧ m.g8 = none := by
  rcases tryAt_cases h with h' | h' | h' | h' | h' | h' | h'
  · exact absurd (tryAlt1_groups h').2.2.2.1 (Option.isSome_iff_ne_none.mp h5)
  · exact absurd (tryAlt2_groups h').2.2.2.1 (Option.isSome_iff_ne_none.mp h5)
  · exact absurd (tryAlt3_groups h').2.2.2.2.1 (Option.isSome_iff_ne_none.mp h5)
  · exact tryAlt4_groups h'
  · exact absurd (tryAlt5_groups h').2.2.2.2.1 (Option.isSome_iff_ne_none.mp h5)
  · exact absurd (tryAlt6_groups h').2.2.2.2.1 (Option.isSome_iff_ne_none.mp h5)
  · exact absurd (tryAlt7_groups h').2.2.2.2 (Option.isSome_iff_ne_none.mp h5)

/-- Groups 3 and 4 (processing-instruction target and data) are
populated together or not at all. -/
theorem tryAt_pi_shape {s : List Char} {m : MMatch} (h : tryAt s = some m) :
    m.g3.isSome ↔ m.g4.isSome := by
  rcases tryAt_cases h with h' | h' | h' | h' | h' | h' | h'
  · have := tryAlt1_groups h'; simp [this.2.1, this.2.2.1]
  · have := tryAlt2_groups h'; simp [this.2.1, this.2.2.1]
  · have := tryAlt3_groups h'; simp [this.2.2.1, this.2.2.2.1]
  · have := tryAlt4_groups h'; simp [this.2.2.1, this.2.2.2.1]
  · have := tryAlt5_groups h'; simp [this.2.2.1, this.2.2.2.1]
  · have := tryAlt6_groups h'; simp [this.2.2.1, this.2.2.2.1]
  · have := tryAlt7_groups h'; simp [this.2.2.1, this.2.2.2.1]

/-- Every bump-along result is a `tryAt` match at its own index. -/
theorem markupExecAux_tryAt {cs : List Char} {m : MMatch} :
    ∀ {fuel pos : Nat}, markupExecAux cs fuel pos = some m →
      ∃ r, tryAt (cs.drop m.index) = some r ∧ m = { r with index := m.index } := by
  intro fuel
  induction fuel with
  | zero => intro pos h; exact absurd h (by simp [markupExecAux])
  | succ fuel ih =>
    intro pos h
    unfold markupExecAux at h
    split at h
    · injection h with h
      subst h
      refine ⟨_, ?_, rfl⟩
      simpa using (by assumption : tryAt (cs.drop pos) = some _)
    · split at h
      · exact ih h
      · exact absurd h (by simp)

/-- Every `markupExec` result is a `tryAt` match at its own index. -/
theorem markupExec_tryAt {cs : List Char} {pos : Nat} {m : MMatch}
    (h : markupExec cs pos = some m) :
    ∃ r, tryAt (cs.drop m.index) = some r ∧ m = { r with index := m.index } :=
  markupExecAux_tryAt h

/-! ### The stack invariant

The open-element stack always consists of element frames on top of the
root fragment frame: it is never empty and the root is never popped.
The current node of the source is, by construction of the zipper, the
stack head, so non-emptiness is exactly "the current node is the stack
top, the root at the bottom". -/

/-- A stack whose bottom entry is the root fragment frame. -/
inductive RootedStack : List Frame → Prop where
  | base (f : Frame) : f.tag = none → RootedStack [f]
  | push (f : Frame) (st : List Frame) : RootedStack st → RootedStack (f :: st)

theorem RootedStack.ne_nil {st : List Frame} (h : RootedStack st) : st ≠ [] := by
  cases h <;> simp

theorem RootedStack.tail {f g : Frame} {rest : List Frame}
    (h : RootedStack (f :: g :: rest)) : RootedStack (g :: rest) := by
  cases h with
  | push _ _ h' => exact h'

theorem RootedStack.replaceHead {f f' : Frame} {rest : List Frame}
    (h : RootedStack (f :: rest)) (ht : f'.tag = f.tag) : RootedStack (f' :: rest) := by
  cases h with
  | base _ h0 => exact RootedStack.base f' (ht.trans h0)
  | push _ _ h' => exact RootedStack.push f' rest h'

theorem rooted_appendToCurrent {st : List Frame} (n : Node) (h : RootedStack st) :
    RootedStack (appendToCurrent n st) := by
  cases h with
  | base f h0 => exact RootedStack.base _ h0
  | push f rest h' => exact RootedStack.push _ rest h'

theorem rooted_popFrame {st : List Frame} (h : RootedStack st) :
    RootedStack (popFrame st) := by
  match st, h with
  | [f], h => exact h
  | f :: g :: rest, h => exact (h.tail).replaceHead rfl

theorem rooted_autoCloseAux (t : List Char) :
    ∀ (rest : List Frame) (f : Frame), RootedStack (f :: rest) →
      RootedStack (autoCloseAux t f rest) := by
  intro rest
  induction rest with
  | nil => intro f h; exact h
  | cons g rs ih =>
    intro f h
    unfold autoCloseAux
    split
    · exact (h.tail).replaceHead rfl
    · exact ih _ ((h.tail).replaceHead rfl)

theorem rooted_autoClose (t : List Char) {st : List Frame} (h : RootedStack st) :
    RootedStack (autoClose t st) := by
  match st, h with
  | f :: rest, h => exact rooted_autoCloseAux t rest f h

theorem rooted_setAttr (decode : List Char → List Char) {st : List Frame} (am : AttrM)
    (h : RootedStack st) : RootedStack (setAttr decode st am) := by
  cases h with
  | base f h0 => exact RootedStack.base _ h0
  | push f rest h' => exact RootedStack.push _ rest h'

theorem rooted_foldl_setAttr (decode : List Char → List Char) :
    ∀ (ms : List AttrM) {st : List Frame}, RootedStack st →
      RootedStack (ms.foldl (setAttr decode) st) := by
  intro ms
  induction ms with
  | nil => intro st h; exact h
  | cons am ms ih => intro st h; exact ih (rooted_setAttr decode am h)

theorem rooted_handleStartTag (cfg : Config) (nm : List Char) (stop : Nat) {s : PState}
    (h : RootedStack s.stack) : RootedStack (handleStartTag cfg nm stop s).stack := by
  unfold handleStartTag
  dsimp only
  repeat' split
  all_goals try dsimp only
  all_goals solve_by_elim [RootedStack.push, rooted_autoClose]

theorem rooted_handleEndTag (nm : List Char) {s : PState}
    (h : RootedStack s.stack) : RootedStack (handleEndTag nm s).stack := by
  unfold handleEndTag
  split
  · split
    · exact rooted_popFrame h
    · exact h
  · exact h

theorem rooted_stepScanning (cfg : Config) (cs : List Char) {s : PState} (m : MMatch)
    (h : RootedStack s.stack) : RootedStack (stepScanning cfg cs s m).stack := by
  unfold stepScanning
  dsimp only
  repeat' split
  all_goals
    solve_by_elim [rooted_appendToCurrent, rooted_handleStartTag, rooted_handleEndTag]

theorem rooted_stepInsideStartTag (cfg : Config) (decode : List Char → List Char)
    (cs : List Char) {s : PState} (m : MMatch)
    (h : RootedStack s.stack) : RootedStack (stepInsideStartTag cfg decode cs s m).stack := by
  unfold stepInsideStartTag
  dsimp only
  repeat' split
  all_goals
    solve_by_elim [rooted_foldl_setAttr, rooted_popFrame]

theorem rooted_stepPlainText (cs : List Char) {s : PState} (m : MMatch)
    (h : RootedStack s.stack) : RootedStack (stepPlainText cs s m).stack := by
  unfold stepPlainText
  dsimp only
  repeat' split
  all_goals
    solve_by_elim [rooted_appendToCurrent, rooted_popFrame]

theorem rooted_stepMatch (cfg : Config) (decode : List Char → List Char) (cs : List Char)
    {s : PState} (m : MMatch) (h : RootedStack s.stack) :
    RootedStack (stepMatch cfg decode cs s m).stack := by
  unfold stepMatch
  dsimp only
  split
  · exact rooted_stepScanning cfg cs m h
  · exact rooted_stepInsideStartTag cfg decode cs m h
  · exact rooted_stepPlainText cs m h

theorem rooted_runLoop (cfg : Config) (decode : List Char → List Char) (cs : List Char) :
    ∀ (fuel : Nat) {s : PState}, RootedStack s.stack →
      RootedStack (runLoop cfg decode cs fuel s).stack := by
  intro fuel
  induction fuel with
  | zero => intro s h; exact h
  | succ fuel ih =>
    intro s h
    unfold runLoop
    split
    · exact h
    · exact ih (rooted_stepMatch cfg decode cs _ h)

/-! ### Characterizations used by the claims -/

/-- The spec's description of the unnestable auto-close on the stack's
tag skeleton (head = current): "pop the open-element stack repeatedly —
each pop drops one ancestor and advances current to the new top — until
either the popped element's tag name equals the triggering name
(inclusive pop) or the root is reached". -/
def specUnnestablePop (t : List Char) : List (Option (List Char)) → List (Option (List Char))
  | [] => []
  | [x] => [x]
  | x :: y :: xs => if x = some t then y :: xs else specUnnestablePop t (y :: xs)

theorem autoCloseAux_tags (t : List Char) :
    ∀ (rest : List Frame) (f : Frame),
      (autoCloseAux t f rest).map Frame.tag =
        specUnnestablePop t ((f :: rest).map Frame.tag) := by
  intro rest
  induction rest with
  | nil => intro f; rfl
  | cons g rs ih =>
    intro f
    unfold autoCloseAux
    split
    · simp only [List.map_cons, specUnnestablePop, if_pos (by assumption)]
    · rw [ih]
      simp only [List.map_cons, specUnnestablePop, if_neg (by assumption)]

/-- The source's auto-close loop refines the spec's description on the
stack's tag skeleton. -/
theorem autoClose_tags (t : List Char) (st : List Frame) :
    (autoClose t st).map Frame.tag = specUnnestablePop t (st.map Frame.tag) := by
  match st with
  | [] => rfl
  | f :: rest => exact autoCloseAux_tags t rest f

/-- The attribute loop appends exactly one stored triple per regexp
match, in match order, to the current element. -/
theorem foldl_setAttr_eq (decode : List Char → List Char) :
    ∀ (ms : List AttrM) (f : Frame) (rest : List Frame),
      List.foldl (setAttr decode) (f :: rest) ms =
        { f with attributes := f.attributes ++ ms.map (attrEntry decode f.tag) } :: rest := by
  intro ms
  induction ms with
  | nil => intro f rest; simp
  | cons am ms ih =>
    intro f rest
    rw [List.foldl_cons]
    show List.foldl (setAttr decode)
      ({ f with attributes := f.attributes ++ [attrEntry decode f.tag am] } :: rest) ms = _
    rw [ih]
    simp

/-- Group facts transported from `tryAt` to `markupExec` results:
end-tag matches. -/
theorem markupExec_endTag_shape {cs : List Char} {pos : Nat} {m : MMatch}
    (h : markupExec cs pos = some m) (h8 : m.g8.isSome) :
    m.g1 = none ∧ m.g2 = none ∧ m.g3 = none ∧ m.g4 = none ∧ m.g5 = none := by
  obtain ⟨r, hr, hm⟩ := markupExec_tryAt h
  have : r.g8.isSome := by rw [hm] at h8; exact h8
  have hs := tryAt_endTag_shape hr this
  rw [hm]
  exact hs

/-- Group facts transported from `tryAt` to `markupExec` results:
start-tag matches. -/
theorem markupExec_startTag_shape {cs : List Char} {pos : Nat} {m : MMatch}
    (h : markupExec cs pos = some m) (h5 : m.g5.isSome) :
    m.g1 = none ∧ m.g2 = none ∧ m.g3 = none ∧ m.g4 = none ∧ m.g8 = none := by
  obtain ⟨r, hr, hm⟩ := markupExec_tryAt h
  have : r.g5.isSome := by rw [hm] at h5; exact h5
  have hs := tryAt_startTag_shape hr this
  rw [hm]
  exact hs

/-- Group facts transported from `tryAt` to `markupExec` results: the
processing-instruction groups come together. -/
theorem markupExec_pi_shape {cs : List Char} {pos : Nat} {m : MMatch}
    (h : markupExec cs pos = some m) : m.g3.isSome ↔ m.g4.isSome := by
  obtain ⟨r, hr, hm⟩ := markupExec_tryAt h
  have hs := tryAt_pi_shape hr
  rw [hm]
  exact hs

/-- A mismatched end tag leaves the whole parser state untouched
(source lines 158-173: the `if` guard fails and nothing happens). -/
theorem handleEndTag_mismatch {nm : List Char} {s : PState}
    (h : headTagOf s.stack ≠ some (upperL nm)) : handleEndTag nm s = s := by
  unfold handleEndTag
  split
  · split
    · exact absurd (by simp_all) h
    · rfl
  · rfl

/-- Counting after `List.erase`: the erased element loses exactly one
occurrence. -/
theorem count_erase_self_list (a : List Char) (l : List (List Char)) :
    (l.erase a).count a = l.count a - 1 := by
  induction l with
  | nil => simp
  | cons b t ih =>
    rw [List.erase_cons]
    by_cases hba : b = a
    · subst hba; simp
    · have hbeq : (b == a) = false := by simp [hba]
      rw [if_neg (by simp [hba]), List.count_cons, List.count_cons, ih, hbeq]
      simp

/-- Counting after `List.erase`: other elements are untouched. -/
theorem count_erase_of_ne_list {a b : List Char} (hab : a ≠ b) (l : List (List Char)) :
    (l.erase b).count a = l.count a := by
  induction l with
  | nil => simp
  | cons c t ih =>
    rw [List.erase_cons]
    by_cases hcb : c = b
    · subst hcb
      have hca : (c == a) = false := by
        simp only [beq_eq_false_iff_ne, ne_eq]
        intro h
        exact hab h.symm
      rw [if_pos (by simp), List.count_cons, hca]
      simp
    · rw [if_neg (by simp [hcb]), List.count_cons, List.count_cons, ih]

/-- In the scanning state, an end-tag match with no pending text reduces
the step to the end-tag handler (plus the `lastIndex` update). -/
theorem stepMatch_endTag (cfg : Config) (decode : List Char → List Char) (cs : List Char)
    (s : PState) (m : MMatch) (nm : List Char)
    (hread : s.readState = RState.startOrEndTag)
    (h1 : m.g1 = none) (h2 : m.g2 = none) (h3 : m.g3 = none) (h5 : m.g5 = none)
    (h8 : m.g8 = some nm) (hidx : m.index = s.lastIndex) :
    stepMatch cfg decode cs s m = { handleEndTag nm s with lastIndex := m.stop } := by
  unfold stepMatch
  rw [hread]
  dsimp only
  unfold stepScanning
  rw [h1, h2, h3, h5, h8]
  dsimp only
  rw [if_neg (by simp [hidx])]

/-! ### Claims -/

/-- C3: at every step of the parse the root fragment remains the bottom
of the open-element stack and is never popped: the initial stack is
rooted, every match-processing step and the whole scan loop preserve
rootedness, and a rooted stack is never empty (the current node is by
construction the stack head, so it is always the stack top, the root at
the bottom); in particular `<b><c></b></c>` — more closers than openers
— is consumed without the stack going below the root. -/
theorem c3_root_never_popped :
    RootedStack initState.stack
    ∧ (∀ (cfg : Config) (decode : List Char → List Char) (cs : List Char) (s : PState)
        (m : MMatch), RootedStack s.stack → RootedStack (stepMatch cfg decode cs s m).stack)
    ∧ (∀ (cfg : Config) (decode : List Char → List Char) (cs : List Char) (fuel : Nat)
        (s : PState), RootedStack s.stack → RootedStack (runLoop cfg decode cs fuel s).stack)
    ∧ (∀ st : List Frame, RootedStack st → st ≠ [])
    ∧ parse cfgE idD "<b><c></b></c>".toList =
        [Node.element ['B'] ['H'] [] [Node.element ['C'] ['H'] [] []]] :=
  ⟨RootedStack.base rootFrame rfl,
   fun cfg decode cs _ m h => rooted_stepMatch cfg decode cs m h,
   fun cfg decode cs fuel _ h => rooted_runLoop cfg decode cs fuel h,
   fun _ h => h.ne_nil,
   rfl⟩

theorem c3_root_never_popped_witness :
    RootedStack (stepMatch cfgE idD [] initState
      (MMatch.mk 0 1 none none none none none none none none)).stack :=
  c3_root_never_popped.2.1 cfgE idD [] initState
    (MMatch.mk 0 1 none none none none none none none none)
    c3_root_never_popped.1

/-- C7: an end-tag token whose name does not (case-insensitively) equal
the current node's tag name is ignored entirely: the handler returns the
state unchanged (stack, current node, unnestable tracker, read state),
and a full scanning-state step on such a match with no pending text
changes nothing but the scan position `lastIndex`. -/
theorem c7_mismatched_end_tag_ignored :
    (∀ (nm : List Char) (s : PState),
      headTagOf s.stack ≠ some (upperL nm) → handleEndTag nm s = s)
    ∧ (∀ (cfg : Config) (decode : List Char → List Char) (cs : List Char) (s : PState)
        (m : MMatch) (nm : List Char),
        s.readState = RState.startOrEndTag →
        markupExec cs s.lastIndex = some m →
        m.g8 = some nm →
        m.index = s.lastIndex →
        headTagOf s.stack ≠ some (upperL nm) →
        stepMatch cfg decode cs s m = { s with lastIndex := m.stop }) := by
  refine ⟨fun nm s h => handleEndTag_mismatch h, ?_⟩
  intro cfg decode cs s m nm hread hexec h8 hidx hmis
  obtain ⟨h1, h2, h3, _, h5⟩ := markupExec_endTag_shape hexec (by rw [h8]; rfl)
  rw [stepMatch_endTag cfg decode cs s m nm hread h1 h2 h3 h5 h8 hidx,
    handleEndTag_mismatch hmis]

theorem c7_mismatched_end_tag_ignored_witness :
    stepMatch cfgE idD "</b>".toList
      (PState.mk [Frame.mk (some ['C']) (some ['H']) [] [], rootFrame] none []
        RState.startOrEndTag 0 0)
      (MMatch.mk 0 4 none none none none none none none (some ['b'])) =
    PState.mk [Frame.mk (some ['C']) (some ['H']) [] [], rootFrame] none []
      RState.startOrEndTag 0 4 :=
  c7_mismatched_end_tag_ignored.2 cfgE idD "</b>".toList
    (PState.mk [Frame.mk (some ['C']) (some ['H']) [] [], rootFrame] none []
      RState.startOrEndTag 0 0)
    (MMatch.mk 0 4 none none none none none none none (some ['b'])) ['b']
    rfl rfl rfl rfl (by decide)

/-- C1: a start tag whose canonical name is already tracked as
unnestable removes that name from the tracker exactly once (the first
occurrence; every other name keeps its multiplicity) and pops the stack
per the spec's description — repeatedly, stopping after the popped
element's tag name equals the triggering name (inclusive) or at the root
— before pushing the new element; in particular `<a>1<a>2</a></a>` with
`a` unnestable yields two sibling `A` elements with text children `1`
and `2`. -/
theorem c1_unnestable_autoclose :
    (∀ (cfg : Config) (nm : List Char) (stop : Nat) (s : PState),
      s.unnestableTagNames.contains (upperL nm) = true →
        (handleStartTag cfg nm stop s).unnestableTagNames
            = s.unnestableTagNames.erase (upperL nm)
        ∧ ((handleStartTag cfg nm stop s).unnestableTagNames).count (upperL nm)
            = s.unnestableTagNames.count (upperL nm) - 1
        ∧ (∀ u : List Char, u ≠ upperL nm →
            ((handleStartTag cfg nm stop s).unnestableTagNames).count u
              = s.unnestableTagNames.count u)
        ∧ ((handleStartTag cfg nm stop s).stack).map Frame.tag
            = some (upperL nm) :: specUnnestablePop (upperL nm) (s.stack.map Frame.tag))
    ∧ parse cfgA idD "<a>1<a>2</a></a>".toList =
        [Node.element ['A'] ['H'] [] [Node.text ['1']],
         Node.element ['A'] ['H'] [] [Node.text ['2']]] := by
  refine ⟨?_, rfl⟩
  intro cfg nm stop s hc
  unfold handleStartTag
  dsimp only
  rw [if_pos hc]
  dsimp only
  exact ⟨rfl, count_erase_self_list (upperL nm) s.unnestableTagNames,
    fun u hu => count_erase_of_ne_list hu s.unnestableTagNames,
    by rw [List.map_cons, autoClose_tags]⟩

theorem c1_unnestable_autoclose_witness :
    (handleStartTag cfgA ['a'] 3
        (PState.mk [Frame.mk (some ['A']) (some ['H']) [] [], rootFrame] none [['A']]
          RState.startOrEndTag 0 0)).unnestableTagNames = []
    ∧ ((handleStartTag cfgA ['a'] 3
        (PState.mk [Frame.mk (some ['A']) (some ['H']) [] [], rootFrame] none [['A']]
          RState.startOrEndTag 0 0)).stack).map Frame.tag = [some ['A'], none] :=
  ⟨(c1_unnestable_autoclose.1 cfgA ['a'] 3
      (PState.mk [Frame.mk (some ['A']) (some ['H']) [] [], rootFrame] none [['A']]
        RState.startOrEndTag 0 0) rfl).1,
   (c1_unnestable_autoclose.1 cfgA ['a'] 3
      (PState.mk [Frame.mk (some ['A']) (some ['H']) [] [], rootFrame] none [['A']]
        RState.startOrEndTag 0 0) rfl).2.2.2⟩

/-- In the plain-text read state, a step is the plain-text handler plus
the `lastIndex` update. -/
theorem stepMatch_plainText_reduce (cfg : Config) (decode : List Char → List Char)
    (cs : List Char) (s : PState) (m : MMatch)
    (hread : s.readState = RState.plainTextContent) :
    stepMatch cfg decode cs s m = { stepPlainText cs s m with lastIndex := m.stop } := by
  unfold stepMatch
  rw [hread]

/-- Raw-text mode ignores every match that is not its own end tag. -/
theorem stepPlainText_noExit (cs : List Char) (s : PState) (m : MMatch) (t : List Char)
    (hptn : s.plainTextTagName = some t)
    (hne : ∀ nm : List Char, m.g8 = some nm → upperL nm ≠ t) :
    stepPlainText cs s m = s := by
  unfold stepPlainText
  rw [hptn]
  dsimp only
  cases hm8 : m.g8 with
  | none => rfl
  | some nm =>
    dsimp only
    rw [if_neg (hne nm hm8)]

/-- The matching end tag closes raw-text mode, flushing the whole
content as one text node. -/
theorem stepPlainText_exit (cs : List Char) (s : PState) (m : MMatch) (t nm : List Char)
    (hptn : s.plainTextTagName = some t)
    (h8 : m.g8 = some nm) (hup : upperL nm = t) :
    stepPlainText cs s m =
      { s with
          stack := popFrame
            (appendToCurrent (Node.text (sub cs s.startTagIndex m.index)) s.stack),
          plainTextTagName := none,
          readState := RState.startOrEndTag } := by
  unfold stepPlainText
  rw [hptn]
  dsimp only
  rw [h8]
  dsimp only
  rw [if_pos hup]

/-- C2: raw-text mode.  (a) Closing a non-void plain-text element's
start tag with a plain terminator enters raw-text mode with that tag
name active; (b) in raw-text mode any match that is not an end tag whose
upper-cased name equals the active name changes nothing but the scan
position (content is never tokenized); (c) the matching end tag appends
the entire content since the start tag's terminator as exactly one text
node to the element and pops it; in particular `<r><x></r>` with `r`
plain-text yields one `R` element with the single text child `<x>`. -/
theorem c2_raw_text_mode :
    (∀ (cfg : Config) (decode : List Char → List Char) (cs : List Char) (s : PState)
        (m : MMatch) (f : Frame) (rest : List Frame) (t : List Char),
        s.readState = RState.insideStartTag →
        m.g6 = none → m.g7.isSome = true →
        s.stack = f :: rest → f.tag = some t →
        s.startTagIndex + ((attrMatches (sub cs s.startTagIndex m.index)).map AttrM.len).sum
            = m.index →
        cfg.voidElements.contains t = false →
        cfg.plainTextElements.contains t = true →
        (stepMatch cfg decode cs s m).readState = RState.plainTextContent
          ∧ (stepMatch cfg decode cs s m).plainTextTagName = some t)
    ∧ (∀ (cfg : Config) (decode : List Char → List Char) (cs : List Char) (s : PState)
        (m : MMatch) (t : List Char),
        s.readState = RState.plainTextContent →
        s.plainTextTagName = some t →
        (∀ nm : List Char, m.g8 = some nm → upperL nm ≠ t) →
        stepMatch cfg decode cs s m = { s with lastIndex := m.stop })
    ∧ (∀ (cfg : Config) (decode : List Char → List Char) (cs : List Char) (s : PState)
        (m : MMatch) (t nm : List Char),
        s.readState = RState.plainTextContent →
        s.plainTextTagName = some t →
        m.g8 = some nm → upperL nm = t →
        stepMatch cfg decode cs s m =
          { s with
              stack := popFrame
                (appendToCurrent (Node.text (sub cs s.startTagIndex m.index)) s.stack),
              plainTextTagName := none,
              readState := RState.startOrEndTag,
              lastIndex := m.stop })
    ∧ parse cfgR idD "<r><x></r>".toList =
        [Node.element ['R'] ['H'] [] [Node.text "<x>".toList]] := by
  refine ⟨?_, ?_, ?_, rfl⟩
  · intro cfg decode cs s m f rest t hread h6 h7 hstack htag hfull hvoid hpt
    unfold stepMatch
    rw [hread]
    dsimp only
    unfold stepInsideStartTag
    rw [if_pos (by simp [h7] : (m.g6.isSome || m.g7.isSome) = true)]
    dsimp only
    rw [hstack, foldl_setAttr_eq, if_pos hfull]
    dsimp only [headTagOf]
    rw [htag]
    rw [if_pos (by dsimp only [optContains]; rw [h7, hvoid]; rfl :
      (m.g7.isSome && !optContains cfg.voidElements (some t)) = true)]
    dsimp only
    rw [if_pos (by dsimp only [optContains]; rw [hpt] :
      optContains cfg.plainTextElements (some t) = true)]
    exact ⟨rfl, rfl⟩
  · intro cfg decode cs s m t hread hptn hne
    rw [stepMatch_plainText_reduce cfg decode cs s m hread,
      stepPlainText_noExit cs s m t hptn hne]
  · intro cfg decode cs s m t nm hread hptn h8 hup
    rw [stepMatch_plainText_reduce cfg decode cs s m hread,
      stepPlainText_exit cs s m t nm hptn h8 hup]

theorem c2_raw_text_mode_witness :
    stepMatch cfgR idD "<r>ab".toList
      (PState.mk [Frame.mk (some ['R']) (some ['H']) [] [], rootFrame] (some ['R']) []
        RState.plainTextContent 3 3)
      (MMatch.mk 3 2 none none none none (some ['a','b']) none none none) =
    PState.mk [Frame.mk (some ['R']) (some ['H']) [] [], rootFrame] (some ['R']) []
      RState.plainTextContent 3 5 :=
  c2_raw_text_mode.2.1 cfgR idD "<r>ab".toList
    (PState.mk [Frame.mk (some ['R']) (some ['H']) [] [], rootFrame] (some ['R']) []
      RState.plainTextContent 3 3)
    (MMatch.mk 3 2 none none none none (some ['a','b']) none none none) ['R']
    rfl rfl (fun nm h => absurd h (by simp))

/-- C9: a start-tag terminator whose attribute substring is not fully
consumed by the attribute matcher does not fail the parse: the
successfully matched attributes are still set on the element (in match
order), no node is created, the stack skeleton and the rest of the
parser state are unchanged, `startTagIndex` advances by the consumed
length, and the scan simply continues (the state stays
`insideStartTag`). -/
theorem c9_attr_leftover_recoverable :
    ∀ (cfg : Config) (decode : List Char → List Char) (cs : List Char) (s : PState)
      (m : MMatch) (f : Frame) (rest : List Frame),
      s.readState = RState.insideStartTag →
      (m.g6.isSome || m.g7.isSome) = true →
      s.stack = f :: rest →
      s.startTagIndex + ((attrMatches (sub cs s.startTagIndex m.index)).map AttrM.len).sum
          ≠ m.index →
      stepMatch cfg decode cs s m =
        { s with
            stack := { f with attributes := f.attributes ++
                (attrMatches (sub cs s.startTagIndex m.index)).map (attrEntry decode f.tag) }
              :: rest,
            startTagIndex := s.startTagIndex +
              ((attrMatches (sub cs s.startTagIndex m.index)).map AttrM.len).sum,
            lastIndex := m.stop } := by
  intro cfg decode cs s m f rest hread hterm hstack hne
  unfold stepMatch
  rw [hread]
  dsimp only
  unfold stepInsideStartTag
  rw [if_pos hterm]
  dsimp only
  rw [hstack, foldl_setAttr_eq, if_neg hne, hread]

theorem c9_attr_leftover_recoverable_witness :
    stepMatch cfgE idD "<e d e>".toList
      (PState.mk [Frame.mk (some ['E']) (some ['H']) [] [], rootFrame] none []
        RState.insideStartTag 2 2)
      (MMatch.mk 6 1 none none none none none none (some ['>']) none) =
    PState.mk [Frame.mk (some ['E']) (some ['H']) [(none, ['d'], [])] [], rootFrame] none []
      RState.insideStartTag 5 7 :=
  c9_attr_leftover_recoverable cfgE idD "<e d e>".toList
    (PState.mk [Frame.mk (some ['E']) (some ['H']) [] [], rootFrame] none []
      RState.insideStartTag 2 2)
    (MMatch.mk 6 1 none none none none none none (some ['>']) none)
    (Frame.mk (some ['E']) (some ['H']) [] []) [rootFrame]
    rfl rfl rfl (by decide)

/-- C8: namespace resolution.  An element whose canonical name is `SVG`
receives the SVG namespace; any other start tag creates an element whose
namespace is inherited from the current node (default namespace at the
root, empty-string namespaces falling back like JavaScript `||`); when
the current node's namespace is the (non-empty) SVG namespace, the new
element inherits it, so a whole `<svg>` subtree reports the SVG
namespace while elements outside report the default one, as the concrete
parse shows. -/
theorem c8_namespace_resolution :
    (∀ (cfg : Config) (nm : List Char) (stop : Nat) (s : PState),
        upperL nm = svgU →
        headNS (handleStartTag cfg nm stop s).stack = some cfg.svg)
    ∧ (∀ (cfg : Config) (nm : List Char) (stop : Nat) (s : PState),
        s.unnestableTagNames.contains (upperL nm) = false →
        upperL nm ≠ svgU →
        (handleStartTag cfg nm stop s).stack
          = Frame.mk (some (upperL nm)) (some (jsOr (headNS s.stack) cfg.html)) [] []
              :: s.stack)
    ∧ (∀ (cfg : Config) (nm : List Char) (stop : Nat) (s : PState),
        cfg.svg ≠ [] →
        s.unnestableTagNames.contains (upperL nm) = false →
        headNS s.stack = some cfg.svg →
        headNS (handleStartTag cfg nm stop s).stack = some cfg.svg)
    ∧ parse cfgE idD "<svg><g></g></svg><p>".toList =
        [Node.element "SVG".toList ['S'] [] [Node.element ['G'] ['S'] [] []],
         Node.element ['P'] ['H'] [] []] := by
  have p1 : ∀ (cfg : Config) (nm : List Char) (stop : Nat) (s : PState),
      upperL nm = svgU →
      headNS (handleStartTag cfg nm stop s).stack = some cfg.svg := by
    intro cfg nm stop s hsvg
    unfold handleStartTag
    dsimp only
    rw [if_pos hsvg]
    split <;> rfl
  have p2 : ∀ (cfg : Config) (nm : List Char) (stop : Nat) (s : PState),
      s.unnestableTagNames.contains (upperL nm) = false →
      upperL nm ≠ svgU →
      (handleStartTag cfg nm stop s).stack
        = Frame.mk (some (upperL nm)) (some (jsOr (headNS s.stack) cfg.html)) [] []
            :: s.stack := by
    intro cfg nm stop s hc hsvg
    unfold handleStartTag
    dsimp only
    rw [if_neg hsvg]
    split
    · simp_all
    · rfl
  refine ⟨p1, p2, ?_, rfl⟩
  intro cfg nm stop s hne hc hhead
  by_cases hsvg : upperL nm = svgU
  · exact p1 cfg nm stop s hsvg
  · rw [p2 cfg nm stop s hc hsvg, hhead]
    dsimp only [headNS]
    cases hsv : cfg.svg with
    | nil => exact absurd hsv hne
    | cons a l => rfl

theorem c8_namespace_resolution_witness :
    headNS (handleStartTag cfgE "svg".toList 5
      (PState.mk [rootFrame] none [] RState.startOrEndTag 0 0)).stack = some ['S'] :=
  c8_namespace_resolution.1 cfgE "svg".toList 5
    (PState.mk [rootFrame] none [] RState.startOrEndTag 0 0) rfl

/-- C10: a processing-instruction token carries its target and data
groups together or not at all (`<?target data?>` with a mandatory space
and non-empty halves); `<?xml version="1.0"?>` produces a
processing-instruction node, while `<?xml?>` — lacking the data part —
is not recognized and its characters are emitted as literal text. -/
theorem c10_processing_instruction :
    (∀ (cs : List Char) (pos : Nat) (m : MMatch), markupExec cs pos = some m →
        (m.g3.isSome ↔ m.g4.isSome))
    ∧ parse cfgE idD "<?xml version=\"1.0\"?>".toList =
        [Node.processingInstruction "xml".toList "version=\"1.0\"".toList]
    ∧ parse cfgE idD "<?xml?>".toList = [Node.text "<?xml?>".toList] :=
  ⟨fun _ _ _ h => markupExec_pi_shape h, rfl, rfl⟩

theorem c10_processing_instruction_witness :
    ((MMatch.mk 0 21 none none (some "xml".toList) (some "version=\"1.0\"".toList)
        none none none none).g3.isSome ↔
      (MMatch.mk 0 21 none none (some "xml".toList) (some "version=\"1.0\"".toList)
        none none none none).g4.isSome) :=
  c10_processing_instruction.1 "<?xml version=\"1.0\"?>".toList 0
    (MMatch.mk 0 21 none none (some "xml".toList) (some "version=\"1.0\"".toList)
      none none none none) rfl

/-- C4 counterexample: on `DOCTYPE html PUBLIC "" "sys"` the claim
predicts publicId `""` (first double-quoted segment) and systemId
`"sys"`, but the quoted-segment regexp requires non-empty content, so
the second quote of `""` pairs with the opening quote of `"sys"` and the
extractor returns publicId `" "` and systemId `""`. -/
theorem c4_doctype_counterexample :
    _getDocumentTypeNode "DOCTYPE html PUBLIC \"\" \"sys\"".toList
        = some (Node.documentType "html".toList [' '] [])
    ∧ dtPublicId (_getDocumentTypeNode "DOCTYPE html PUBLIC \"\" \"sys\"".toList) ≠ some []
    ∧ dtSystemId (_getDocumentTypeNode "DOCTYPE html PUBLIC \"\" \"sys\"".toList)
        ≠ some "sys".toList :=
  ⟨rfl, by decide, by decide⟩

/-- C4 (amended): for declaration text that case-insensitively starts
with `DOCTYPE` and splits into at least two space-separated fields, the
extractor returns the first following field lower-cased as the name and
takes the identifiers from the quoted segments *with non-empty content*
(collected left to right; an empty `""` contributes no segment and its
closing quote may open the next segment): if the remainder contains
`PUBLIC` the first two such segments are publicId and systemId, else the
first (if any) is the systemId; any other declaration yields the
negative "not a doctype" result.  The claim's own examples hold. -/
theorem c4_doctype_amended :
    (∀ value : List Char,
        doctypeU.isPrefixOf (upperL value) = true →
        1 < (splitOnChar ' ' value).length →
        _getDocumentTypeNode value =
          some (Node.documentType
            (lowerL ((splitOnChar ' ' value).getD 1 []))
            (if hasSub publicU (joinSpace ((splitOnChar ' ' value).drop 1)) then
                (collectQuoted (joinSpace ((splitOnChar ' ' value).drop 1))).getD 0 []
              else [])
            (if hasSub publicU (joinSpace ((splitOnChar ' ' value).drop 1)) then
                (collectQuoted (joinSpace ((splitOnChar ' ' value).drop 1))).getD 1 []
              else (collectQuoted (joinSpace ((splitOnChar ' ' value).drop 1))).getD 0 [])))
    ∧ (∀ value : List Char, doctypeU.isPrefixOf (upperL value) = false →
        _getDocumentTypeNode value = none)
    ∧ (∀ value : List Char, (splitOnChar ' ' value).length ≤ 1 →
        _getDocumentTypeNode value = none)
    ∧ _getDocumentTypeNode "DOCTYPE html PUBLIC \"-//X\" \"sys\"".toList
        = some (Node.documentType "html".toList "-//X".toList "sys".toList)
    ∧ _getDocumentTypeNode "DOCTYPE html".toList
        = some (Node.documentType "html".toList [] []) := by
  refine ⟨?_, ?_, ?_, rfl, rfl⟩
  · intro value hp hlen
    unfold _getDocumentTypeNode
    rw [hp]
    rw [if_neg (by simp)]
    rw [if_neg (by omega)]
  · intro value hp
    unfold _getDocumentTypeNode
    rw [hp]
    rw [if_pos (by simp)]
  · intro value hlen
    unfold _getDocumentTypeNode
    split
    · rfl
    · rw [if_pos hlen]

theorem c4_doctype_amended_witness :
    _getDocumentTypeNode "DOCTYPE wide".toList
      = some (Node.documentType "wide".toList [] []) :=
  c4_doctype_amended.1 "DOCTYPE wide".toList rfl (by decide)

/-- C6 counterexample: with `r` configured plain-text, `<r>abc` reaches
end of input in raw-text mode, yet the content is *not* discarded: the
trailing-text flush appends `abc` as a text child of the open `R`
element (one node is emitted, contradicting the claim). -/
theorem c6_eof_raw_text_counterexample :
    parse cfgR idD "<r>abc".toList
        = [Node.element ['R'] ['H'] [] [Node.text "abc".toList]]
    ∧ (firstChildren (parse cfgR idD "<r>abc".toList)).length ≠ 0 :=
  ⟨rfl, by decide⟩

/-- C6 (amended): on end of input in the raw-text or conditional-comment
state no error is raised (the parse is total by construction) and
nothing is emitted *by the scan loop*: once the tokenizer finds no
further match the loop stops silently, so the content between the
state's start and the last match's end is discarded; but the text after
the last match's end is appended by the trailing-text flush as a text
node to the current node.  Hence `<r>a<b` (content ends at a match)
discards `a<b` entirely, while `<r>abc` (no match inside) emits `abc`
as a text child of the raw-text element. -/
theorem c6_eof_unterminated_amended :
    (∀ (cfg : Config) (decode : List Char → List Char) (cs : List Char) (fuel : Nat)
        (s : PState), markupExec cs s.lastIndex = none → runLoop cfg decode cs fuel s = s)
    ∧ parse cfgR idD "<r>a<b".toList = [Node.element ['R'] ['H'] [] []]
    ∧ parse cfgR idD "<r>abc".toList
        = [Node.element ['R'] ['H'] [] [Node.text "abc".toList]] := by
  refine ⟨?_, rfl, rfl⟩
  intro cfg decode cs fuel s h
  cases fuel with
  | zero => rfl
  | succ fuel =>
    unfold runLoop
    rw [h]

theorem c6_eof_unterminated_amended_witness :
    runLoop cfgR idD "<r>abc".toList 7
      (PState.mk [Frame.mk (some ['R']) (some ['H']) [] [], rootFrame] (some ['R']) []
        RState.plainTextContent 3 6) =
    PState.mk [Frame.mk (some ['R']) (some ['H']) [] [], rootFrame] (some ['R']) []
      RState.plainTextContent 3 6 :=
  c6_eof_unterminated_amended.1 cfgR idD "<r>abc".toList 7
    (PState.mk [Frame.mk (some ['R']) (some ['H']) [] [], rootFrame] (some ['R']) []
      RState.plainTextContent 3 6) rfl

/-- C5 counterexample: in `<e d e>` the attribute substring ` d e`
consists of two bare-form attributes, yet only `d` is set: the bare
pattern's trailing `\s+` consumes the separator space, so the second
bare name has no leading whitespace left, matches nothing, and is
dropped as leftover — contradicting "sets each attribute". -/
theorem c5_attr_counterexample :
    parse cfgE idD "<e d e>".toList = [Node.element ['E'] ['H'] [(none, ['d'], [])] []]
    ∧ firstAttrNames (parse cfgE idD "<e d e>".toList) = [['d']]
    ∧ firstAttrNames (parse cfgE idD "<e d e>".toList) ≠ [['d'], ['e']] :=
  ⟨rfl, rfl, by decide⟩

/-! ### Rendered attribute sequences (for the amended C5)

An abstract attribute item in one of the four supported forms, rendered
the way it appears in markup (one space before each item, `name="v"`,
`name='v'`, `name=v`, or bare `name`). -/

/-- The four supported attribute forms. -/
inductive AttrForm where
  | dquoted (v : List Char)
  | squoted (v : List Char)
  | unquoted (v : List Char)
  | bare
deriving DecidableEq

/-- One abstract attribute. -/
structure AttrItem where
  name : List Char
  form : AttrForm
deriving DecidableEq

/-- Render one item (without its leading separator space). -/
def renderItem : AttrItem → List Char
  | ⟨n, AttrForm.dquoted v⟩ => n ++ '=' :: '"' :: v ++ ['"']
  | ⟨n, AttrForm.squoted v⟩ => n ++ '=' :: '\'' :: v ++ ['\'']
  | ⟨n, AttrForm.unquoted v⟩ => n ++ '=' :: v
  | ⟨n, AttrForm.bare⟩ => n

/-- Render an item sequence: one space before each item. -/
def renderItems : List AttrItem → List Char
  | [] => []
  | it :: r => ' ' :: renderItem it ++ renderItems r

/-- Well-formedness of one item: a non-empty attribute name over the
name character class, and a value over the alphabet its form admits
(unquoted values non-empty, as the regexp requires). -/
def wfItem (it : AttrItem) : Prop :=
  it.name ≠ [] ∧ (∀ c ∈ it.name, isAttrNameChar c = true) ∧
    match it.form with
    | AttrForm.dquoted v => ∀ c ∈ v, c ≠ '"'
    | AttrForm.squoted v => ∀ c ∈ v, c ≠ '\''
    | AttrForm.unquoted v => v ≠ [] ∧ ∀ c ∈ v, isUnquotedChar c = true
    | AttrForm.bare => True

/-- No bare attribute directly followed by another bare attribute. -/
def noConsecBare : List AttrItem → Prop
  | a :: b :: r => ¬(a.form = AttrForm.bare ∧ b.form = AttrForm.bare) ∧ noConsecBare (b :: r)
  | _ => True

/-- The raw value the attribute loop records for an item (quoted empty
values are JavaScript-falsy, hence `none`). -/
def itemRaw : AttrItem → Option (List Char)
  | ⟨_, AttrForm.dquoted v⟩ => if v.isEmpty then none else some v
  | ⟨_, AttrForm.squoted v⟩ => if v.isEmpty then none else some v
  | ⟨_, AttrForm.unquoted v⟩ => some v
  | ⟨_, AttrForm.bare⟩ => none

/-- Head-failure span computation: if every element of `a` satisfies `p`
and the head of `b` (if any) does not, then `takeWhile`/`dropWhile` over
`a ++ b` split exactly at the border. -/
theorem span_append {p : Char → Bool} :
    ∀ (a b : List Char), (∀ c ∈ a, p c = true) →
      (∀ x, b.head? = some x → p x = false) →
      (a ++ b).takeWhile p = a ∧ (a ++ b).dropWhile p = b := by
  intro a
  induction a with
  | nil =>
    intro b _ hb
    cases b with
    | nil => exact ⟨rfl, rfl⟩
    | cons x xs =>
      have := hb x rfl
      constructor
      · simp [List.takeWhile_cons, this]
      · simp [List.dropWhile_cons, this]
  | cons c a ih =>
    intro b ha hb
    have hc := ha c (by simp)
    have := ih b (fun d hd => ha d (by simp [hd])) hb
    constructor
    · simp [List.takeWhile_cons, hc, this.1]
    · simp [List.dropWhile_cons, hc, this.2]

/-- A character satisfying a Boolean predicate differs from any
character falsifying it. -/
theorem ne_of_pred {p : Char → Bool} {c k : Char} (hc : p c = true) (hk : p k = false) :
    c ≠ k := by
  intro he
  subst he
  rw [hc] at hk
  cases hk

/-- An attribute-name character is never whitespace (the whitespace
class and the name class are disjoint). -/
theorem isWS_of_attrNameChar {c : Char} (h : isAttrNameChar c = true) : isWS c = false := by
  cases hw : isWS c with
  | false => rfl
  | true =>
    exfalso
    simp only [isWS, Bool.or_eq_true, Bool.and_eq_true, decide_eq_true_eq] at hw
    simp only [isAttrNameChar, isNameChar, Bool.or_eq_true, Bool.and_eq_true,
      decide_eq_true_eq] at h
    rcases hw with hw|hw|hw|hw|hw|hw|hw|hw|⟨hw1, hw2⟩|hw|hw|hw|hw|hw|hw
    · subst hw; exact absurd h (by decide)
    · subst hw; exact absurd h (by decide)
    · subst hw; exact absurd h (by decide)
    · subst hw; exact absurd h (by decide)
    · subst hw; exact absurd h (by decide)
    · subst hw; exact absurd h (by decide)
    · subst hw; exact absurd h (by decide)
    · subst hw; exact absurd h (by decide)
    · rcases h with (⟨h1, h2⟩|⟨h1, h2⟩|⟨h1, h2⟩|h1)|h1|h1
      · exact absurd (le_trans hw1 h2) (by decide)
      · exact absurd (le_trans hw1 h2) (by decide)
      · exact absurd (le_trans hw1 h2) (by decide)
      · subst h1; exact absurd hw1 (by decide)
      · subst h1; exact absurd hw1 (by decide)
      · subst h1; exact absurd hw1 (by decide)
    · subst hw; exact absurd h (by decide)
    · subst hw; exact absurd h (by decide)
    · subst hw; exact absurd h (by decide)
    · subst hw; exact absurd h (by decide)
    · subst hw; exact absurd h (by decide)
    · subst hw; exact absurd h (by decide)

/-- The shape of the rendered remainder after one item: empty, or a
separator space followed by the next item's name-initial character. -/
def sepZ (z : List Char) : Prop :=
  z = [] ∨ ∃ c2 z', z = ' ' :: c2 :: z' ∧ isAttrNameChar c2 = true

/-- A well-formed item renders to its name's head character followed by
the rest. -/
theorem renderItem_cons {it : AttrItem} (h : wfItem it) :
    ∃ c cs, renderItem it = c :: cs ∧ isAttrNameChar c = true := by
  obtain ⟨hne, hna, _⟩ := h
  rcases it with ⟨n, f⟩
  cases n with
  | nil => exact absurd rfl hne
  | cons c n' =>
    cases f with
    | dquoted v => exact ⟨c, _, rfl, hna c (by simp)⟩
    | squoted v => exact ⟨c, _, rfl, hna c (by simp)⟩
    | unquoted v => exact ⟨c, _, rfl, hna c (by simp)⟩
    | bare => exact ⟨c, _, rfl, hna c (by simp)⟩

/-- The rendering of a well-formed item list has the separator shape. -/
theorem sepZ_renderItems {its : List AttrItem} (h : ∀ it ∈ its, wfItem it) :
    sepZ (renderItems its) := by
  cases its with
  | nil => exact Or.inl rfl
  | cons it rest =>
    obtain ⟨c, cs, hr, hc⟩ := renderItem_cons (h it (by simp))
    exact Or.inr ⟨c, cs ++ renderItems rest, by simp [renderItems, hr], hc⟩

/-- `takeWhile` stops immediately at a failing head. -/
theorem takeWhile_cons_neg {p : Char → Bool} (c : Char) (l : List Char) (hc : p c = false) :
    (c :: l).takeWhile p = [] := by
  simp [List.takeWhile_cons, hc]

/-- `dropWhile` keeps a list whose head fails. -/
theorem dropWhile_cons_neg {p : Char → Bool} (c : Char) (l : List Char) (hc : p c = false) :
    (c :: l).dropWhile p = c :: l := by
  simp [List.dropWhile_cons, hc]

/-- Alternative 1 (`name="value"`) succeeds on a rendered double-quoted
item, whatever follows. -/
theorem tryAttrAlt1_dq (w n v z : List Char)
    (hw : ∀ c ∈ w, isWS c = true)
    (hn : n ≠ []) (hna : ∀ c ∈ n, isAttrNameChar c = true)
    (hv : ∀ c ∈ v, c ≠ '"') :
    tryAttrAlt1 (w ++ (n ++ ('=' :: '"' :: (v ++ '"' :: z))))
      = some (AttrM.mk (w.length + (n.length + (v.length + 3))) n
          (if v.isEmpty then none else some v)) := by
  obtain ⟨c0, n', rfl⟩ : ∃ c0 n', n = c0 :: n' := by
    cases n with
    | nil => exact absurd rfl hn
    | cons a b => exact ⟨a, b, rfl⟩
  have hc0 := hna c0 (by simp)
  have hws := span_append w ((c0 :: n') ++ ('=' :: '"' :: (v ++ '"' :: z))) hw
    (by intro x hx; simp at hx; subst hx; exact isWS_of_attrNameChar hc0)
  have hnm := span_append (c0 :: n') ('=' :: '"' :: (v ++ '"' :: z)) hna
    (by intro x hx; simp at hx; subst hx; decide)
  have hvs := span_append (p := fun c => c ≠ '"') v ('"' :: z)
    (fun c hc => decide_eq_true (hv c hc))
    (by intro x hx; simp at hx; subst hx; decide)
  unfold tryAttrAlt1
  try dsimp only
  rw [hws.1, hws.2, hnm.1, hnm.2]
  rw [if_neg (by simp)]
  rw [takeWhile_cons_neg '=' _ (by decide), dropWhile_cons_neg '=' _ (by decide)]
  try dsimp only
  rw [if_pos rfl]
  rw [takeWhile_cons_neg '"' _ (by decide), dropWhile_cons_neg '"' _ (by decide)]
  try dsimp only
  rw [if_pos rfl]
  rw [hvs.1, hvs.2]
  try dsimp only
  rw [if_pos rfl]
  simp only [Option.some.injEq, AttrM.mk.injEq, List.length_nil, List.length_cons,
    and_true, true_and]
  omega

/-- Alternative 1 fails on a rendered single-quoted item (the opening
quote is not a double quote). -/
theorem tryAttrAlt1_sq (w n v z : List Char)
    (hw : ∀ c ∈ w, isWS c = true)
    (hn : n ≠ []) (hna : ∀ c ∈ n, isAttrNameChar c = true) :
    tryAttrAlt1 (w ++ (n ++ ('=' :: '\'' :: (v ++ '\'' :: z)))) = none := by
  obtain ⟨c0, n', rfl⟩ : ∃ c0 n', n = c0 :: n' := by
    cases n with
    | nil => exact absurd rfl hn
    | cons a b => exact ⟨a, b, rfl⟩
  have hc0 := hna c0 (by simp)
  have hws := span_append w ((c0 :: n') ++ ('=' :: '\'' :: (v ++ '\'' :: z))) hw
    (by intro x hx; simp at hx; subst hx; exact isWS_of_attrNameChar hc0)
  have hnm := span_append (c0 :: n') ('=' :: '\'' :: (v ++ '\'' :: z)) hna
    (by intro x hx; simp at hx; subst hx; decide)
  unfold tryAttrAlt1
  try dsimp only
  rw [hws.1, hws.2, hnm.1, hnm.2]
  rw [if_neg (by simp)]
  rw [takeWhile_cons_neg '=' _ (by decide), dropWhile_cons_neg '=' _ (by decide)]
  try dsimp only
  rw [if_pos rfl]
  rw [takeWhile_cons_neg '\'' _ (by decide), dropWhile_cons_neg '\'' _ (by decide)]
  try dsimp only
  rw [if_neg (by decide)]

/-- Alternative 1 fails on a rendered unquoted item (the value's first
character is not a double quote). -/
theorem tryAttrAlt1_uq (w n v z : List Char)
    (hw : ∀ c ∈ w, isWS c = true)
    (hn : n ≠ []) (hna : ∀ c ∈ n, isAttrNameChar c = true)
    (hvne : v ≠ []) (hv : ∀ c ∈ v, isUnquotedChar c = true) :
    tryAttrAlt1 (w ++ (n ++ ('=' :: (v ++ z)))) = none := by
  obtain ⟨c0, n', rfl⟩ : ∃ c0 n', n = c0 :: n' := by
    cases n with
    | nil => exact absurd rfl hn
    | cons a b => exact ⟨a, b, rfl⟩
  obtain ⟨v0, v', rfl⟩ : ∃ v0 v', v = v0 :: v' := by
    cases v with
    | nil => exact absurd rfl hvne
    | cons a b => exact ⟨a, b, rfl⟩
  have hc0 := hna c0 (by simp)
  have hv0 := hv v0 (by simp)
  have hws := span_append w ((c0 :: n') ++ ('=' :: ((v0 :: v') ++ z))) hw
    (by intro x hx; simp at hx; subst hx; exact isWS_of_attrNameChar hc0)
  have hnm := span_append (c0 :: n') ('=' :: ((v0 :: v') ++ z)) hna
    (by intro x hx; simp at hx; subst hx; decide)
  unfold tryAttrAlt1
  try dsimp only
  rw [hws.1, hws.2, hnm.1, hnm.2]
  rw [if_neg (by simp)]
  rw [takeWhile_cons_neg '=' _ (by decide), dropWhile_cons_neg '=' _ (by decide)]
  try dsimp only
  rw [if_pos rfl]
  rw [show ((v0 :: v') ++ z) = v0 :: (v' ++ z) from rfl]
  rw [takeWhile_cons_neg v0 _ (decide_eq_false (ne_of_pred hv0 (by decide))),
    dropWhile_cons_neg v0 _ (decide_eq_false (ne_of_pred hv0 (by decide)))]
  try dsimp only
  rw [if_neg (ne_of_pred hv0 (by decide))]

/-- Alternative 1 fails on a rendered bare item followed by nothing. -/
theorem tryAttrAlt1_bare_nil (w n : List Char)
    (hw : ∀ c ∈ w, isWS c = true)
    (hn : n ≠ []) (hna : ∀ c ∈ n, isAttrNameChar c = true) :
    tryAttrAlt1 (w ++ (n ++ [])) = none := by
  obtain ⟨c0, n', rfl⟩ : ∃ c0 n', n = c0 :: n' := by
    cases n with
    | nil => exact absurd rfl hn
    | cons a b => exact ⟨a, b, rfl⟩
  have hc0 := hna c0 (by simp)
  have hws := span_append w ((c0 :: n') ++ []) hw
    (by intro x hx; simp at hx; subst hx; exact isWS_of_attrNameChar hc0)
  have hnm := span_append (c0 :: n') [] hna (by intro x hx; simp at hx)
  unfold tryAttrAlt1
  try dsimp only
  rw [hws.1, hws.2, hnm.1, hnm.2]
  rw [if_neg (by simp)]
  rw [List.dropWhile_nil]

/-- Alternative 1 fails on a rendered bare item followed by further
items (a space and a name character follow; no equals sign appears). -/
theorem tryAttrAlt1_bare_cons (w n : List Char) (c2 : Char) (z' : List Char)
    (hw : ∀ c ∈ w, isWS c = true)
    (hn : n ≠ []) (hna : ∀ c ∈ n, isAttrNameChar c = true)
    (hc2 : isAttrNameChar c2 = true) :
    tryAttrAlt1 (w ++ (n ++ (' ' :: c2 :: z'))) = none := by
  obtain ⟨c0, n', rfl⟩ : ∃ c0 n', n = c0 :: n' := by
    cases n with
    | nil => exact absurd rfl hn
    | cons a b => exact ⟨a, b, rfl⟩
  have hc0 := hna c0 (by simp)
  have hws := span_append w ((c0 :: n') ++ (' ' :: c2 :: z')) hw
    (by intro x hx; simp at hx; subst hx; exact isWS_of_attrNameChar hc0)
  have hnm := span_append (c0 :: n') (' ' :: c2 :: z') hna
    (by intro x hx; simp at hx; subst hx; decide)
  have hsp := span_append (p := fun c => c = ' ') [' '] (c2 :: z') (by simp)
    (by intro x hx; simp at hx; subst hx;
        exact decide_eq_false (ne_of_pred hc2 (by decide)))
  have hsp1 := hsp.1
  have hsp2 := hsp.2
  rw [show ([' '] ++ (c2 :: z')) = ' ' :: c2 :: z' from rfl] at hsp1 hsp2
  unfold tryAttrAlt1
  try dsimp only
  rw [hws.1, hws.2, hnm.1, hnm.2]
  rw [if_neg (by simp)]
  rw [hsp1, hsp2]
  try dsimp only
  rw [if_neg (ne_of_pred hc2 (by decide))]

/-- Alternative 2 (`name='value'`) succeeds on a rendered single-quoted
item, whatever follows. -/
theorem tryAttrAlt2_sq (w n v z : List Char)
    (hw : ∀ c ∈ w, isWS c = true)
    (hn : n ≠ []) (hna : ∀ c ∈ n, isAttrNameChar c = true)
    (hv : ∀ c ∈ v, c ≠ '\'') :
    tryAttrAlt2 (w ++ (n ++ ('=' :: '\'' :: (v ++ '\'' :: z))))
      = some (AttrM.mk (w.length + (n.length + (v.length + 3))) n
          (if v.isEmpty then none else some v)) := by
  obtain ⟨c0, n', rfl⟩ : ∃ c0 n', n = c0 :: n' := by
    cases n with
    | nil => exact absurd rfl hn
    | cons a b => exact ⟨a, b, rfl⟩
  have hc0 := hna c0 (by simp)
  have hws := span_append w ((c0 :: n') ++ ('=' :: '\'' :: (v ++ '\'' :: z))) hw
    (by intro x hx; simp at hx; subst hx; exact isWS_of_attrNameChar hc0)
  have hnm := span_append (c0 :: n') ('=' :: '\'' :: (v ++ '\'' :: z)) hna
    (by intro x hx; simp at hx; subst hx; decide)
  have hvs := span_append (p := fun c => c ≠ '\'') v ('\'' :: z)
    (fun c hc => decide_eq_true (hv c hc))
    (by intro x hx; simp at hx; subst hx; decide)
  unfold tryAttrAlt2
  try dsimp only
  rw [hws.1, hws.2, hnm.1, hnm.2]
  rw [if_neg (by simp)]
  rw [takeWhile_cons_neg '=' _ (by decide), dropWhile_cons_neg '=' _ (by decide)]
  try dsimp only
  rw [if_pos rfl]
  rw [takeWhile_cons_neg '\'' _ (by decide), dropWhile_cons_neg '\'' _ (by decide)]
  try dsimp only
  rw [if_pos rfl]
  rw [hvs.1, hvs.2]
  try dsimp only
  rw [if_pos rfl]
  simp only [Option.some.injEq, AttrM.mk.injEq, List.length_nil, List.length_cons,
    and_true, true_and]
  omega

/-- Alternative 2 fails on a rendered unquoted item. -/
theorem tryAttrAlt2_uq (w n v z : List Char)
    (hw : ∀ c ∈ w, isWS c = true)
    (hn : n ≠ []) (hna : ∀ c ∈ n, isAttrNameChar c = true)
    (hvne : v ≠ []) (hv : ∀ c ∈ v, isUnquotedChar c = true) :
    tryAttrAlt2 (w ++ (n ++ ('=' :: (v ++ z)))) = none := by
  obtain ⟨c0, n', rfl⟩ : ∃ c0 n', n = c0 :: n' := by
    cases n with
    | nil => exact absurd rfl hn
    | cons a b => exact ⟨a, b, rfl⟩
  obtain ⟨v0, v', rfl⟩ : ∃ v0 v', v = v0 :: v' := by
    cases v with
    | nil => exact absurd rfl hvne
    | cons a b => exact ⟨a, b, rfl⟩
  have hc0 := hna c0 (by simp)
  have hv0 := hv v0 (by simp)
  have hws := span_append w ((c0 :: n') ++ ('=' :: ((v0 :: v') ++ z))) hw
    (by intro x hx; simp at hx; subst hx; exact isWS_of_attrNameChar hc0)
  have hnm := span_append (c0 :: n') ('=' :: ((v0 :: v') ++ z)) hna
    (by intro x hx; simp at hx; subst hx; decide)
  unfold tryAttrAlt2
  try dsimp only
  rw [hws.1, hws.2, hnm.1, hnm.2]
  rw [if_neg (by simp)]
  rw [takeWhile_cons_neg '=' _ (by decide), dropWhile_cons_neg '=' _ (by decide)]
  try dsimp only
  rw [if_pos rfl]
  rw [show ((v0 :: v') ++ z) = v0 :: (v' ++ z) from rfl]
  rw [takeWhile_cons_neg v0 _ (decide_eq_false (ne_of_pred hv0 (by decide))),
    dropWhile_cons_neg v0 _ (decide_eq_false (ne_of_pred hv0 (by decide)))]
  try dsimp only
  rw [if_neg (ne_of_pred hv0 (by decide))]

/-- Alternative 2 fails on a rendered bare item followed by nothing. -/
theorem tryAttrAlt2_bare_nil (w n : List Char)
    (hw : ∀ c ∈ w, isWS c = true)
    (hn : n ≠ []) (hna : ∀ c ∈ n, isAttrNameChar c = true) :
    tryAttrAlt2 (w ++ (n ++ [])) = none := by
  obtain ⟨c0, n', rfl⟩ : ∃ c0 n', n = c0 :: n' := by
    cases n with
    | nil => exact absurd rfl hn
    | cons a b => exact ⟨a, b, rfl⟩
  have hc0 := hna c0 (by simp)
  have hws := span_append w ((c0 :: n') ++ []) hw
    (by intro x hx; simp at hx; subst hx; exact isWS_of_attrNameChar hc0)
  have hnm := span_append (c0 :: n') [] hna (by intro x hx; simp at hx)
  unfold tryAttrAlt2
  try dsimp only
  rw [hws.1, hws.2, hnm.1, hnm.2]
  rw [if_neg (by simp)]
  rw [List.dropWhile_nil]

/-- Alternative 2 fails on a rendered bare item followed by further
items. -/
theorem tryAttrAlt2_bare_cons (w n : List Char) (c2 : Char) (z' : List Char)
    (hw : ∀ c ∈ w, isWS c = true)
    (hn : n ≠ []) (hna : ∀ c ∈ n, isAttrNameChar c = true)
    (hc2 : isAttrNameChar c2 = true) :
    tryAttrAlt2 (w ++ (n ++ (' ' :: c2 :: z'))) = none := by
  obtain ⟨c0, n', rfl⟩ : ∃ c0 n', n = c0 :: n' := by
    cases n with
    | nil => exact absurd rfl hn
    | cons a b => exact ⟨a, b, rfl⟩
  have hc0 := hna c0 (by simp)
  have hws := span_append w ((c0 :: n') ++ (' ' :: c2 :: z')) hw
    (by intro x hx; simp at hx; subst hx; exact isWS_of_attrNameChar hc0)
  have hnm := span_append (c0 :: n') (' ' :: c2 :: z') hna
    (by intro x hx; simp at hx; subst hx; decide)
  have hsp := span_append (p := fun c => c = ' ') [' '] (c2 :: z') (by simp)
    (by intro x hx; simp at hx; subst hx;
        exact decide_eq_false (ne_of_pred hc2 (by decide)))
  have hsp1 := hsp.1
  have hsp2 := hsp.2
  rw [show ([' '] ++ (c2 :: z')) = ' ' :: c2 :: z' from rfl] at hsp1 hsp2
  unfold tryAttrAlt2
  try dsimp only
  rw [hws.1, hws.2, hnm.1, hnm.2]
  rw [if_neg (by simp)]
  rw [hsp1, hsp2]
  try dsimp only
  rw [if_neg (ne_of_pred hc2 (by decide))]

/-- Alternative 3 (`name=value`) succeeds on a rendered unquoted item
followed by nothing or a space. -/
theorem tryAttrAlt3_uq (w n v z : List Char)
    (hw : ∀ c ∈ w, isWS c = true)
    (hn : n ≠ []) (hna : ∀ c ∈ n, isAttrNameChar c = true)
    (hvne : v ≠ []) (hv : ∀ c ∈ v, isUnquotedChar c = true)
    (hz : ∀ x, z.head? = some x → isUnquotedChar x = false) :
    tryAttrAlt3 (w ++ (n ++ ('=' :: (v ++ z))))
      = some (AttrM.mk (w.length + (n.length + (v.length + 1))) n (some v)) := by
  obtain ⟨c0, n', rfl⟩ : ∃ c0 n', n = c0 :: n' := by
    cases n with
    | nil => exact absurd rfl hn
    | cons a b => exact ⟨a, b, rfl⟩
  obtain ⟨v0, v', rfl⟩ : ∃ v0 v', v = v0 :: v' := by
    cases v with
    | nil => exact absurd rfl hvne
    | cons a b => exact ⟨a, b, rfl⟩
  have hc0 := hna c0 (by simp)
  have hv0 := hv v0 (by simp)
  have hws := span_append w ((c0 :: n') ++ ('=' :: ((v0 :: v') ++ z))) hw
    (by intro x hx; simp at hx; subst hx; exact isWS_of_attrNameChar hc0)
  have hnm := span_append (c0 :: n') ('=' :: ((v0 :: v') ++ z)) hna
    (by intro x hx; simp at hx; subst hx; decide)
  have hvs := span_append (p := isUnquotedChar) (v0 :: v') z hv hz
  unfold tryAttrAlt3
  try dsimp only
  rw [hws.1, hws.2, hnm.1, hnm.2]
  rw [if_neg (by simp)]
  rw [takeWhile_cons_neg '=' _ (by decide), dropWhile_cons_neg '=' _ (by decide)]
  try dsimp only
  rw [if_pos rfl]
  rw [show ((v0 :: v') ++ z) = v0 :: (v' ++ z) from rfl]
  rw [takeWhile_cons_neg v0 _ (decide_eq_false (ne_of_pred hv0 (by decide))),
    dropWhile_cons_neg v0 _ (decide_eq_false (ne_of_pred hv0 (by decide)))]
  rw [show (v0 :: (v' ++ z)) = (v0 :: v') ++ z from rfl, hvs.1]
  rw [if_neg (by simp)]
  simp only [Option.some.injEq, AttrM.mk.injEq, List.length_nil, List.length_cons,
    and_true, true_and]
  omega

/-- Alternative 3 fails on a rendered bare item followed by nothing. -/
theorem tryAttrAlt3_bare_nil (w n : List Char)
    (hw : ∀ c ∈ w, isWS c = true)
    (hn : n ≠ []) (hna : ∀ c ∈ n, isAttrNameChar c = true) :
    tryAttrAlt3 (w ++ (n ++ [])) = none := by
  obtain ⟨c0, n', rfl⟩ : ∃ c0 n', n = c0 :: n' := by
    cases n with
    | nil => exact absurd rfl hn
    | cons a b => exact ⟨a, b, rfl⟩
  have hc0 := hna c0 (by simp)
  have hws := span_append w ((c0 :: n') ++ []) hw
    (by intro x hx; simp at hx; subst hx; exact isWS_of_attrNameChar hc0)
  have hnm := span_append (c0 :: n') [] hna (by intro x hx; simp at hx)
  unfold tryAttrAlt3
  try dsimp only
  rw [hws.1, hws.2, hnm.1, hnm.2]
  rw [if_neg (by simp)]
  rw [List.dropWhile_nil]

/-- Alternative 3 fails on a rendered bare item followed by further
items. -/
theorem tryAttrAlt3_bare_cons (w n : List Char) (c2 : Char) (z' : List Char)
    (hw : ∀ c ∈ w, isWS c = true)
    (hn : n ≠ []) (hna : ∀ c ∈ n, isAttrNameChar c = true)
    (hc2 : isAttrNameChar c2 = true) :
    tryAttrAlt3 (w ++ (n ++ (' ' :: c2 :: z'))) = none := by
  obtain ⟨c0, n', rfl⟩ : ∃ c0 n', n = c0 :: n' := by
    cases n with
    | nil => exact absurd rfl hn
    | cons a b => exact ⟨a, b, rfl⟩
  have hc0 := hna c0 (by simp)
  have hws := span_append w ((c0 :: n') ++ (' ' :: c2 :: z')) hw
    (by intro x hx; simp at hx; subst hx; exact isWS_of_attrNameChar hc0)
  have hnm := span_append (c0 :: n') (' ' :: c2 :: z') hna
    (by intro x hx; simp at hx; subst hx; decide)
  have hsp := span_append (p := fun c => c = ' ') [' '] (c2 :: z') (by simp)
    (by intro x hx; simp at hx; subst hx;
        exact decide_eq_false (ne_of_pred hc2 (by decide)))
  have hsp1 := hsp.1
  have hsp2 := hsp.2
  rw [show ([' '] ++ (c2 :: z')) = ' ' :: c2 :: z' from rfl] at hsp1 hsp2
  unfold tryAttrAlt3
  try dsimp only
  rw [hws.1, hws.2, hnm.1, hnm.2]
  rw [if_neg (by simp)]
  rw [hsp1, hsp2]
  try dsimp only
  rw [if_neg (ne_of_pred hc2 (by decide))]

/-- Alternative 4 (bare) succeeds on a rendered bare item at the end of
the attribute string (the `$` branch). -/
theorem tryAttrAlt4_bare_nil (w0 : Char) (w n : List Char)
    (hw : ∀ c ∈ w0 :: w, isWS c = true)
    (hn : n ≠ []) (hna : ∀ c ∈ n, isAttrNameChar c = true) :
    tryAttrAlt4 ((w0 :: w) ++ (n ++ []))
      = some (AttrM.mk ((w0 :: w).length + n.length) n none) := by
  obtain ⟨c0, n', rfl⟩ : ∃ c0 n', n = c0 :: n' := by
    cases n with
    | nil => exact absurd rfl hn
    | cons a b => exact ⟨a, b, rfl⟩
  have hc0 := hna c0 (by simp)
  have hws := span_append (w0 :: w) ((c0 :: n') ++ []) hw
    (by intro x hx; simp at hx; subst hx; exact isWS_of_attrNameChar hc0)
  have hnm := span_append (c0 :: n') [] hna (by intro x hx; simp at hx)
  unfold tryAttrAlt4
  try dsimp only
  rw [hws.1, hws.2]
  rw [if_neg (by simp)]
  rw [hnm.1, hnm.2]
  rw [if_neg (by simp)]
  rw [List.takeWhile_nil]
  simp

/-- Alternative 4 (bare) succeeds on a rendered bare item followed by
further items, consuming the separator space (the greedy `\s+`). -/
theorem tryAttrAlt4_bare_cons (w0 : Char) (w n : List Char) (c2 : Char) (z' : List Char)
    (hw : ∀ c ∈ w0 :: w, isWS c = true)
    (hn : n ≠ []) (hna : ∀ c ∈ n, isAttrNameChar c = true)
    (hc2 : isAttrNameChar c2 = true) :
    tryAttrAlt4 ((w0 :: w) ++ (n ++ (' ' :: c2 :: z')))
      = some (AttrM.mk ((w0 :: w).length + n.length + 1) n none) := by
  obtain ⟨c0, n', rfl⟩ : ∃ c0 n', n = c0 :: n' := by
    cases n with
    | nil => exact absurd rfl hn
    | cons a b => exact ⟨a, b, rfl⟩
  have hc0 := hna c0 (by simp)
  have hws := span_append (w0 :: w) ((c0 :: n') ++ (' ' :: c2 :: z')) hw
    (by intro x hx; simp at hx; subst hx; exact isWS_of_attrNameChar hc0)
  have hnm := span_append (c0 :: n') (' ' :: c2 :: z') hna
    (by intro x hx; simp at hx; subst hx; decide)
  have hsp := span_append (p := isWS) [' '] (c2 :: z') (by simp; decide)
    (by intro x hx; simp at hx; subst hx; exact isWS_of_attrNameChar hc2)
  have hsp1 := hsp.1
  rw [show ([' '] ++ (c2 :: z')) = ' ' :: c2 :: z' from rfl] at hsp1
  unfold tryAttrAlt4
  try dsimp only
  rw [hws.1, hws.2]
  rw [if_neg (by simp)]
  rw [hnm.1, hnm.2]
  rw [if_neg (by simp)]
  rw [hsp1]
  rw [if_neg (by simp)]
  simp only [Option.some.injEq, AttrM.mk.injEq, List.length_cons, List.length_nil,
    and_true, true_and]

/-- The alternative chain on a rendered double-quoted item. -/
theorem tryAttrAt_dq (w n v z : List Char)
    (hw : ∀ c ∈ w, isWS c = true)
    (hn : n ≠ []) (hna : ∀ c ∈ n, isAttrNameChar c = true)
    (hv : ∀ c ∈ v, c ≠ '"') :
    tryAttrAt (w ++ (n ++ ('=' :: '"' :: (v ++ '"' :: z))))
      = some (AttrM.mk (w.length + (n.length + (v.length + 3))) n
          (if v.isEmpty then none else some v)) := by
  unfold tryAttrAt
  rw [tryAttrAlt1_dq w n v z hw hn hna hv]

/-- The alternative chain on a rendered single-quoted item. -/
theorem tryAttrAt_sq (w n v z : List Char)
    (hw : ∀ c ∈ w, isWS c = true)
    (hn : n ≠ []) (hna : ∀ c ∈ n, isAttrNameChar c = true)
    (hv : ∀ c ∈ v, c ≠ '\'') :
    tryAttrAt (w ++ (n ++ ('=' :: '\'' :: (v ++ '\'' :: z))))
      = some (AttrM.mk (w.length + (n.length + (v.length + 3))) n
          (if v.isEmpty then none else some v)) := by
  unfold tryAttrAt
  rw [tryAttrAlt1_sq w n v z hw hn hna]
  rw [tryAttrAlt2_sq w n v z hw hn hna hv]

/-- The alternative chain on a rendered unquoted item. -/
theorem tryAttrAt_uq (w n v z : List Char)
    (hw : ∀ c ∈ w, isWS c = true)
    (hn : n ≠ []) (hna : ∀ c ∈ n, isAttrNameChar c = true)
    (hvne : v ≠ []) (hv : ∀ c ∈ v, isUnquotedChar c = true)
    (hz : ∀ x, z.head? = some x → isUnquotedChar x = false) :
    tryAttrAt (w ++ (n ++ ('=' :: (v ++ z))))
      = some (AttrM.mk (w.length + (n.length + (v.length + 1))) n (some v)) := by
  unfold tryAttrAt
  rw [tryAttrAlt1_uq w n v z hw hn hna hvne hv]
  rw [tryAttrAlt2_uq w n v z hw hn hna hvne hv]
  rw [tryAttrAlt3_uq w n v z hw hn hna hvne hv hz]

/-- The alternative chain on a rendered final bare item. -/
theorem tryAttrAt_bare_nil (w0 : Char) (w n : List Char)
    (hw : ∀ c ∈ w0 :: w, isWS c = true)
    (hn : n ≠ []) (hna : ∀ c ∈ n, isAttrNameChar c = true) :
    tryAttrAt ((w0 :: w) ++ (n ++ []))
      = some (AttrM.mk ((w0 :: w).length + n.length) n none) := by
  unfold tryAttrAt
  rw [tryAttrAlt1_bare_nil (w0 :: w) n hw hn hna]
  rw [tryAttrAlt2_bare_nil (w0 :: w) n hw hn hna]
  rw [tryAttrAlt3_bare_nil (w0 :: w) n hw hn hna]
  rw [tryAttrAlt4_bare_nil w0 w n hw hn hna]

/-- The alternative chain on a rendered bare item followed by further
items: the separator space is consumed. -/
theorem tryAttrAt_bare_cons (w0 : Char) (w n : List Char) (c2 : Char) (z' : List Char)
    (hw : ∀ c ∈ w0 :: w, isWS c = true)
    (hn : n ≠ []) (hna : ∀ c ∈ n, isAttrNameChar c = true)
    (hc2 : isAttrNameChar c2 = true) :
    tryAttrAt ((w0 :: w) ++ (n ++ (' ' :: c2 :: z')))
      = some (AttrM.mk ((w0 :: w).length + n.length + 1) n none) := by
  unfold tryAttrAt
  rw [tryAttrAlt1_bare_cons (w0 :: w) n c2 z' hw hn hna hc2]
  rw [tryAttrAlt2_bare_cons (w0 :: w) n c2 z' hw hn hna hc2]
  rw [tryAttrAlt3_bare_cons (w0 :: w) n c2 z' hw hn hna hc2]
  rw [tryAttrAlt4_bare_cons w0 w n c2 z' hw hn hna hc2]

/-- Unfolding equation of the attribute scan on a non-empty input. -/
theorem attrScanAux_cons (fuel : Nat) (c : Char) (cs : List Char) :
    attrScanAux (fuel + 1) (c :: cs) =
      match tryAttrAt (c :: cs) with
      | some am => am :: attrScanAux fuel ((c :: cs).drop am.len)
      | none => attrScanAux fuel cs := rfl

/-- The attribute scan of an empty input is empty. -/
theorem attrScanAux_nil (fuel : Nat) : attrScanAux fuel [] = [] := by
  cases fuel <;> rfl

theorem noConsecBare_tail {a : AttrItem} {r : List AttrItem}
    (h : noConsecBare (a :: r)) : noConsecBare r := by
  cases r with
  | nil => trivial
  | cons b s => exact h.2

/-- A rendered item list starts with a space (or is empty), which is not
an unquoted-value character. -/
theorem renderItems_head_unquoted (rest : List AttrItem) :
    ∀ x, (renderItems rest).head? = some x → isUnquotedChar x = false := by
  cases rest with
  | nil => intro x hx; simp [renderItems] at hx
  | cons a b =>
    intro x hx
    simp [renderItems] at hx
    subst hx
    decide

/-- The scan step equation when the alternative chain succeeds. -/
theorem attrScanAux_succ_some (f : Nat) (l : List Char) (m : AttrM)
    (h : tryAttrAt l = some m) (hl : l ≠ []) :
    attrScanAux (f + 1) l = m :: attrScanAux f (l.drop m.len) := by
  cases l with
  | nil => exact absurd rfl hl
  | cons c cs =>
    rw [attrScanAux_cons f c cs, h]

/-- One scanner step over a rendered double-quoted attribute: the match
is produced and the scan resumes exactly after the closing quote. -/
theorem attrScan_step_dq (f : Nat) (w n v rr : List Char)
    (hw : ∀ c ∈ w, isWS c = true)
    (hn : n ≠ []) (hna : ∀ c ∈ n, isAttrNameChar c = true)
    (hv : ∀ c ∈ v, c ≠ '"') :
    attrScanAux (f + 1) (w ++ (n ++ ('=' :: '"' :: (v ++ '"' :: rr))))
      = AttrM.mk (w.length + (n.length + (v.length + 3))) n
          (if v.isEmpty then none else some v) :: attrScanAux f rr := by
  have hdrop : (w ++ (n ++ ('=' :: '"' :: (v ++ '"' :: rr)))).drop
      (w.length + (n.length + (v.length + 3))) = rr := by
    have hsplit : w ++ (n ++ ('=' :: '"' :: (v ++ '"' :: rr)))
        = (w ++ (n ++ ('=' :: '"' :: (v ++ ['"'])))) ++ rr := by simp
    have hlen : (w ++ (n ++ ('=' :: '"' :: (v ++ ['"'])))).length
        = w.length + (n.length + (v.length + 3)) := by
      simp only [List.length_append, List.length_cons, List.length_nil]
    rw [hsplit, ← hlen, List.drop_left]
  rw [attrScanAux_succ_some f _ _ (tryAttrAt_dq w n v rr hw hn hna hv) (by simp)]
  dsimp only
  rw [hdrop]

/-- One scanner step over a rendered single-quoted attribute. -/
theorem attrScan_step_sq (f : Nat) (w n v rr : List Char)
    (hw : ∀ c ∈ w, isWS c = true)
    (hn : n ≠ []) (hna : ∀ c ∈ n, isAttrNameChar c = true)
    (hv : ∀ c ∈ v, c ≠ '\'') :
    attrScanAux (f + 1) (w ++ (n ++ ('=' :: '\'' :: (v ++ '\'' :: rr))))
      = AttrM.mk (w.length + (n.length + (v.length + 3))) n
          (if v.isEmpty then none else some v) :: attrScanAux f rr := by
  have hdrop : (w ++ (n ++ ('=' :: '\'' :: (v ++ '\'' :: rr)))).drop
      (w.length + (n.length + (v.length + 3))) = rr := by
    have hsplit : w ++ (n ++ ('=' :: '\'' :: (v ++ '\'' :: rr)))
        = (w ++ (n ++ ('=' :: '\'' :: (v ++ ['\''])))) ++ rr := by simp
    have hlen : (w ++ (n ++ ('=' :: '\'' :: (v ++ ['\''])))).length
        = w.length + (n.length + (v.length + 3)) := by
      simp only [List.length_append, List.length_cons, List.length_nil]
    rw [hsplit, ← hlen, List.drop_left]
  rw [attrScanAux_succ_some f _ _ (tryAttrAt_sq w n v rr hw hn hna hv) (by simp)]
  dsimp only
  rw [hdrop]

/-- One scanner step over a rendered unquoted attribute, given that the
remainder does not start with an unquoted-value character. -/
theorem attrScan_step_uq (f : Nat) (w n v rr : List Char)
    (hw : ∀ c ∈ w, isWS c = true)
    (hn : n ≠ []) (hna : ∀ c ∈ n, isAttrNameChar c = true)
    (hvne : v ≠ []) (hv : ∀ c ∈ v, isUnquotedChar c = true)
    (hz : ∀ x, rr.head? = some x → isUnquotedChar x = false) :
    attrScanAux (f + 1) (w ++ (n ++ ('=' :: (v ++ rr))))
      = AttrM.mk (w.length + (n.length + (v.length + 1))) n (some v)
          :: attrScanAux f rr := by
  have hdrop : (w ++ (n ++ ('=' :: (v ++ rr)))).drop
      (w.length + (n.length + (v.length + 1))) = rr := by
    have hsplit : w ++ (n ++ ('=' :: (v ++ rr)))
        = (w ++ (n ++ ('=' :: v))) ++ rr := by simp
    have hlen : (w ++ (n ++ ('=' :: v))).length
        = w.length + (n.length + (v.length + 1)) := by
      simp only [List.length_append, List.length_cons]
    rw [hsplit, ← hlen, List.drop_left]
  rw [attrScanAux_succ_some f _ _ (tryAttrAt_uq w n v rr hw hn hna hvne hv hz) (by simp)]
  dsimp only
  rw [hdrop]

/-- One scanner step over a rendered final bare attribute: the bare
alternative consumes the whole remaining input. -/
theorem attrScan_step_bare_nil (f : Nat) (w0 : Char) (w n : List Char)
    (hw : ∀ c ∈ w0 :: w, isWS c = true)
    (hn : n ≠ []) (hna : ∀ c ∈ n, isAttrNameChar c = true) :
    attrScanAux (f + 1) ((w0 :: w) ++ (n ++ []))
      = [AttrM.mk ((w0 :: w).length + n.length) n none] := by
  have hdrop : ((w0 :: w) ++ (n ++ [])).drop ((w0 :: w).length + n.length)
      = ([] : List Char) := by
    have hsplit : (w0 :: w) ++ (n ++ []) = ((w0 :: w) ++ n) ++ ([] : List Char) := by
      simp
    have hlen : ((w0 :: w) ++ n).length = (w0 :: w).length + n.length := by
      simp
      omega
    rw [hsplit, ← hlen, List.drop_left]
  rw [attrScanAux_succ_some f _ _ (tryAttrAt_bare_nil w0 w n hw hn hna) (by simp)]
  dsimp only
  rw [hdrop, attrScanAux_nil]

/-- One scanner step over a rendered bare attribute followed by further
items: the bare alternative also consumes the separator space, so the
scan resumes directly at the next item's name. -/
theorem attrScan_step_bare_cons (f : Nat) (w0 : Char) (w n : List Char)
    (c2 : Char) (z' : List Char)
    (hw : ∀ c ∈ w0 :: w, isWS c = true)
    (hn : n ≠ []) (hna : ∀ c ∈ n, isAttrNameChar c = true)
    (hc2 : isAttrNameChar c2 = true) :
    attrScanAux (f + 1) ((w0 :: w) ++ (n ++ (' ' :: c2 :: z')))
      = AttrM.mk ((w0 :: w).length + n.length + 1) n none
          :: attrScanAux f (c2 :: z') := by
  have hdrop : ((w0 :: w) ++ (n ++ (' ' :: c2 :: z'))).drop
      ((w0 :: w).length + n.length + 1) = c2 :: z' := by
    have hsplit : (w0 :: w) ++ (n ++ (' ' :: c2 :: z'))
        = ((w0 :: w) ++ (n ++ [' '])) ++ (c2 :: z') := by simp
    have hlen : ((w0 :: w) ++ (n ++ [' '])).length
        = (w0 :: w).length + n.length + 1 := by
      simp
      omega
    rw [hsplit, ← hlen, List.drop_left]
  rw [attrScanAux_succ_some f _ _ (tryAttrAt_bare_cons w0 w n c2 z' hw hn hna hc2)
    (by simp)]
  dsimp only
  rw [hdrop]

/-- The scanner on a rendered well-formed item list without consecutive
bare items recovers every item in order (names and raw values), and the
match lengths sum to the whole input length.  Stated jointly with the
same fact for an input that starts directly at a non-bare item (no
leading separator), the state reached after a bare item has consumed
the separator space. -/
theorem attrScan_render :
    ∀ its : List AttrItem, (∀ it ∈ its, wfItem it) → noConsecBare its →
      (∀ fuel : Nat, (renderItems its).length ≤ fuel →
        (attrScanAux fuel (renderItems its)).map AttrM.name = its.map AttrItem.name
        ∧ (attrScanAux fuel (renderItems its)).map AttrM.rawValue = its.map itemRaw
        ∧ ((attrScanAux fuel (renderItems its)).map AttrM.len).sum
            = (renderItems its).length)
      ∧ (∀ (fuel : Nat) (it : AttrItem) (rest : List AttrItem), its = it :: rest →
          ¬ it.form = AttrForm.bare →
          (renderItem it ++ renderItems rest).length ≤ fuel →
          (attrScanAux fuel (renderItem it ++ renderItems rest)).map AttrM.name
              = its.map AttrItem.name
          ∧ (attrScanAux fuel (renderItem it ++ renderItems rest)).map AttrM.rawValue
              = its.map itemRaw
          ∧ ((attrScanAux fuel (renderItem it ++ renderItems rest)).map AttrM.len).sum
              = (renderItem it ++ renderItems rest).length) := by
  intro its
  induction its with
  | nil =>
    intro _ _
    constructor
    · intro fuel _
      simp [renderItems, attrScanAux_nil]
    · intro fuel it rest h
      cases h
  | cons it rest ih =>
    intro hwf hnb
    have hwfit : wfItem it := hwf it (by simp)
    have hwfr : ∀ x ∈ rest, wfItem x := fun x hx => hwf x (by simp [hx])
    have hnbr : noConsecBare rest := noConsecBare_tail hnb
    have ihr := ih hwfr hnbr
    have key : ¬ it.form = AttrForm.bare → ∀ (w : List Char), (∀ c ∈ w, isWS c = true) →
        ∀ fuel : Nat, (w ++ (renderItem it ++ renderItems rest)).length ≤ fuel →
          (attrScanAux fuel (w ++ (renderItem it ++ renderItems rest))).map AttrM.name
              = it.name :: rest.map AttrItem.name
          ∧ (attrScanAux fuel (w ++ (renderItem it ++ renderItems rest))).map AttrM.rawValue
              = itemRaw it :: rest.map itemRaw
          ∧ ((attrScanAux fuel (w ++ (renderItem it ++ renderItems rest))).map AttrM.len).sum
              = (w ++ (renderItem it ++ renderItems rest)).length := by
      intro hnotbare w hw fuel hfuel
      cases fuel with
      | zero =>
        exfalso
        obtain ⟨c, cs, hri, _⟩ := renderItem_cons hwfit
        rw [hri] at hfuel
        simp only [List.length_append, List.length_cons] at hfuel
        omega
      | succ f =>
        rcases it with ⟨n, fo⟩
        cases fo with
        | dquoted v =>
          obtain ⟨hn, hna, hv⟩ := hwfit
          have hre : w ++ (renderItem ⟨n, AttrForm.dquoted v⟩ ++ renderItems rest)
              = w ++ (n ++ ('=' :: '"' :: (v ++ '"' :: renderItems rest))) := by
            simp [renderItem]
          rw [hre] at hfuel ⊢
          rw [attrScan_step_dq f w n v (renderItems rest) hw hn hna hv]
          have hbound : (renderItems rest).length ≤ f := by
            simp only [List.length_append, List.length_cons] at hfuel
            omega
          obtain ⟨ihn, ihv, ihs⟩ := ihr.1 f hbound
          refine ⟨?_, ?_, ?_⟩
          · simp [ihn]
          · simp [ihv, itemRaw]
          · simp only [List.map_cons, List.sum_cons, ihs]
            simp only [List.length_append, List.length_cons]
            omega
        | squoted v =>
          obtain ⟨hn, hna, hv⟩ := hwfit
          have hre : w ++ (renderItem ⟨n, AttrForm.squoted v⟩ ++ renderItems rest)
              = w ++ (n ++ ('=' :: '\'' :: (v ++ '\'' :: renderItems rest))) := by
            simp [renderItem]
          rw [hre] at hfuel ⊢
          rw [attrScan_step_sq f w n v (renderItems rest) hw hn hna hv]
          have hbound : (renderItems rest).length ≤ f := by
            simp only [List.length_append, List.length_cons] at hfuel
            omega
          obtain ⟨ihn, ihv, ihs⟩ := ihr.1 f hbound
          refine ⟨?_, ?_, ?_⟩
          · simp [ihn]
          · simp [ihv, itemRaw]
          · simp only [List.map_cons, List.sum_cons, ihs]
            simp only [List.length_append, List.length_cons]
            omega
        | unquoted v =>
          obtain ⟨hn, hna, hvne, hv⟩ := hwfit
          have hre : w ++ (renderItem ⟨n, AttrForm.unquoted v⟩ ++ renderItems rest)
              = w ++ (n ++ ('=' :: (v ++ renderItems rest))) := by
            simp [renderItem]
          rw [hre] at hfuel ⊢
          rw [attrScan_step_uq f w n v (renderItems rest) hw hn hna hvne hv
            (renderItems_head_unquoted rest)]
          have hbound : (renderItems rest).length ≤ f := by
            simp only [List.length_append, List.length_cons] at hfuel
            omega
          obtain ⟨ihn, ihv, ihs⟩ := ihr.1 f hbound
          refine ⟨?_, ?_, ?_⟩
          · simp [ihn]
          · simp [ihv, itemRaw]
          · simp only [List.map_cons, List.sum_cons, ihs]
            simp only [List.length_append, List.length_cons]
            omega
        | bare =>
          exact absurd rfl hnotbare
    constructor
    · intro fuel hfuel
      by_cases hb : it.form = AttrForm.bare
      · rcases it with ⟨n, fo⟩
        have hb' : fo = AttrForm.bare := hb
        subst hb'
        obtain ⟨hn, hna, -⟩ := hwfit
        cases rest with
        | nil =>
          have hre : renderItems [⟨n, AttrForm.bare⟩]
              = (' ' :: ([] : List Char)) ++ (n ++ []) := by
            simp [renderItems, renderItem]
          rw [hre] at hfuel ⊢
          cases fuel with
          | zero =>
            exfalso
            simp only [List.length_append, List.length_cons, List.length_nil] at hfuel
            omega
          | succ f =>
            rw [attrScan_step_bare_nil f ' ' [] n (by decide) hn hna]
            refine ⟨?_, ?_, ?_⟩
            · simp
            · simp [itemRaw]
            · simp only [List.map_cons, List.map_nil, List.sum_cons, List.sum_nil]
              simp only [List.length_append, List.length_cons, List.length_nil]
              omega
        | cons it2 rest2 =>
          have hit2 : ¬ it2.form = AttrForm.bare := fun h => hnb.1 ⟨rfl, h⟩
          have hwfit2 : wfItem it2 := hwfr it2 (by simp)
          obtain ⟨c2, cs2, hri2, hc2⟩ := renderItem_cons hwfit2
          have hre : renderItems (⟨n, AttrForm.bare⟩ :: it2 :: rest2)
              = (' ' :: ([] : List Char))
                  ++ (n ++ (' ' :: c2 :: (cs2 ++ renderItems rest2))) := by
            simp only [renderItems, hri2]
            simp [renderItem]
          rw [hre] at hfuel ⊢
          cases fuel with
          | zero =>
            exfalso
            simp only [List.length_append, List.length_cons, List.length_nil] at hfuel
            omega
          | succ f =>
            rw [attrScan_step_bare_cons f ' ' [] n c2 (cs2 ++ renderItems rest2)
              (by decide) hn hna hc2]
            have heq : attrScanAux f (c2 :: (cs2 ++ renderItems rest2))
                = attrScanAux f (renderItem it2 ++ renderItems rest2) := by
              rw [hri2]
              rfl
            have hl2 : (renderItem it2).length = cs2.length + 1 := by
              rw [hri2]; simp
            have hbound : (renderItem it2 ++ renderItems rest2).length ≤ f := by
              simp only [List.length_append, List.length_cons, List.length_nil]
                at hfuel ⊢
              omega
            obtain ⟨ihn2, ihv2, ihs2⟩ := ihr.2 f it2 rest2 rfl hit2 hbound
            rw [heq]
            refine ⟨?_, ?_, ?_⟩
            · simp [ihn2]
            · simp [ihv2, itemRaw]
            · simp only [List.map_cons, List.sum_cons, ihs2]
              simp only [List.length_append, List.length_cons, List.length_nil]
                at hl2 ⊢
              omega
      · have hre : renderItems (it :: rest)
            = [' '] ++ (renderItem it ++ renderItems rest) := by
          simp [renderItems]
        rw [hre] at hfuel ⊢
        obtain ⟨h1, h2, h3⟩ := key hb [' '] (by decide) fuel hfuel
        refine ⟨?_, ?_, h3⟩
        · rw [h1]; simp
        · rw [h2]; simp
    · intro fuel it0 rest0 heq hnb0 hfuel
      injection heq with he1 he2
      subst he1
      subst he2
      obtain ⟨h1, h2, h3⟩ := key hnb0 [] (by simp) fuel hfuel
      exact ⟨by simpa using h1, by simpa using h2, by simpa using h3⟩

/-- C5 (amended): the attribute loop of the `insideStartTag` state
supports double-quoted, single-quoted, unquoted and bare attributes,
and — provided no bare attribute is immediately followed by another
bare attribute — sets each rendered attribute on the current element in
order: the scanner recovers every item's name and raw value, the
`setAttributeNS` fold appends exactly one attribute entry per match in
order, and a start tag exercising all four forms parses to an element
carrying exactly those attributes. -/
theorem c5_attr_forms_amended :
    (∀ its : List AttrItem, (∀ it ∈ its, wfItem it) → noConsecBare its →
      (attrMatches (renderItems its)).map AttrM.name = its.map AttrItem.name
      ∧ (attrMatches (renderItems its)).map AttrM.rawValue = its.map itemRaw)
    ∧ (∀ (decode : List Char → List Char) (ms : List AttrM) (f : Frame)
          (rest : List Frame),
        List.foldl (setAttr decode) (f :: rest) ms =
          { f with attributes := f.attributes ++ ms.map (attrEntry decode f.tag) } :: rest)
    ∧ parse cfgE idD "<e a=\"1\" b='2' c=3 d>".toList
        = [Node.element ['E'] ['H']
            [(none, ['a'], ['1']), (none, ['b'], ['2']),
             (none, ['c'], ['3']), (none, ['d'], [])] []] := by
  refine ⟨?_, foldl_setAttr_eq, rfl⟩
  intro its hwf hnb
  have h := (attrScan_render its hwf hnb).1 (renderItems its).length (le_refl _)
  exact ⟨h.1, h.2.1⟩

/-- Closed instance of the amended C5 theorem at a concrete one-item
list, discharging its hypotheses. -/
theorem c5_attr_forms_amended_witness :
    (attrMatches (renderItems [⟨['x'], AttrForm.dquoted ['1']⟩])).map AttrM.name
        = [['x']]
    ∧ (attrMatches (renderItems [⟨['x'], AttrForm.dquoted ['1']⟩])).map AttrM.rawValue
        = [some ['1']] := by
  have h := c5_attr_forms_amended.1 [⟨['x'], AttrForm.dquoted ['1']⟩]
    (by
      intro it hit
      simp at hit
      subst hit
      exact ⟨by decide, by decide, by decide⟩)
    trivial
  constructor
  · simpa using h.1
  · simpa [itemRaw] using h.2
